import Mathlib

/-!
Messaging routes of the animal marketplace.

A shallow embedding of `backend/routes/messages.js`: the conversation id
computation, the send handler, and the conversation list handler, with the
properties the specification states about them.

JavaScript strings are sequences of UTF-16 code units; the default
`Array.prototype.sort` comparator orders strings by code unit, so strings are
embedded as lists of code units.
-/

namespace Messages

/-- A JavaScript string: its sequence of UTF-16 code units. -/
abbrev JSString := List Nat

/-- The code units of a literal made of characters of the basic plane. -/
def str (s : String) : JSString := s.toList.map Char.toNat

/-- The separator `_` of the template literal (code unit 95). -/
def sep : Nat := 95

/-- JavaScript `x < y` on strings: lexicographic comparison of code units. -/
def strLt : JSString → JSString → Bool
  | [], [] => false
  | [], _ :: _ => true
  | _ :: _, [] => false
  | x :: xs, y :: ys => if x < y then true else if y < x then false else strLt xs ys

/-- The order the default comparator of `sort()` induces: `x` may stay before `y`. -/
def strLe (x y : JSString) : Prop := strLt y x = false

instance : DecidableRel strLe := fun x y => inferInstanceAs (Decidable (strLt y x = false))

/-- The call `[...].sort()` on an array of strings: a stable sort by code units. -/
def jsSort (xs : List JSString) : List JSString := List.insertionSort strLe xs

/-- The array `participants = [req.user._id.toString(), receiverId].sort()`. -/
def participants (userId receiverId : JSString) : List JSString :=
  jsSort [userId, receiverId]

/-- The template literal `${participants[0]}_${participants[1]}_${animalId}`
of `router.post('/conversation')` and `router.post('/')`. -/
def resolve (userId receiverId animalId : JSString) : JSString :=
  let p := participants userId receiverId
  p.getD 0 [] ++ [sep] ++ p.getD 1 [] ++ [sep] ++ animalId

/-- The handler `router.post('/conversation')` answers either with the id or
with status 404 or 500. -/
inductive ConversationReply where
  | ok (conversationId : JSString)
  | notFound
  | serverError
deriving DecidableEq, Repr

/-- What `Animal.findById(animalId)` yields: a document, `null`, or a thrown
error (which the handler's `catch` turns into status 500). -/
inductive FindResult where
  | doc
  | null
  | throws
deriving DecidableEq, Repr

/-- A stored message document. -/
structure Message where
  conversationId : JSString
  sender : JSString
  receiver : JSString
  animal : JSString
  message : JSString
  isRead : Bool
  createdAt : Nat
deriving DecidableEq, Repr

/-- The collaborators a handler calls into: the listings collection behind
`Animal.findById`, and the validation the `Message` model runs in
`Message.create` (the model file is not part of the sources, so its schema
validation is a parameter). -/
structure Collaborators where
  findById : JSString → FindResult
  validate : Message → Bool

/-- The body of a send request; `conversationId` may be absent. -/
structure SendBody where
  receiverId : JSString
  animalId : JSString
  message : JSString
  conversationId : Option JSString
deriving DecidableEq, Repr

/-- The reply of `router.post('/')`: status 201 with the message, 404, or 500. -/
inductive SendReply where
  | created (m : Message)
  | notFound
  | serverError
deriving DecidableEq, Repr

/-- JavaScript `conversationId || fallback` on an optional string: an absent
value and the empty string are falsy. -/
def orElse (conversationId : Option JSString) (fallback : JSString) : JSString :=
  match conversationId with
  | none => fallback
  | some [] => fallback
  | some (c :: cs) => c :: cs

/-- Modelled from the spec: the `Message` model (`models/Message.js`) is not
part of the sources. `Message.create` validates the document and, on success,
persists it as a new message with `isRead = false` and `createdAt = now`,
appended to the collection; on failure it throws and stores nothing. -/
def create (validate : Message → Bool) (store : List Message)
    (conversationId sender receiver animal message : JSString) (now : Nat) :
    Option (Message × List Message) :=
  let m : Message :=
    { conversationId := conversationId, sender := sender, receiver := receiver,
      animal := animal, message := message, isRead := false, createdAt := now }
  if validate m then some (m, store ++ [m]) else none

/-- The handler `router.post('/conversation')` for the authenticated `user`. -/
def postConversation (env : Collaborators) (user receiverId animalId : JSString) :
    ConversationReply :=
  match env.findById animalId with
  | FindResult.throws => ConversationReply.serverError
  | FindResult.null => ConversationReply.notFound
  | FindResult.doc => ConversationReply.ok (resolve user receiverId animalId)

/-- The handler `router.post('/')` for the authenticated `user`, at time `now`:
the reply and the message collection afterwards. The reply carries the created
message (the handler reads it back by `_id` and populates it). -/
def postMessage (env : Collaborators) (store : List Message) (user : JSString)
    (body : SendBody) (now : Nat) : SendReply × List Message :=
  match env.findById body.animalId with
  | FindResult.throws => (SendReply.serverError, store)
  | FindResult.null => (SendReply.notFound, store)
  | FindResult.doc =>
    let convId := orElse body.conversationId (resolve user body.receiverId body.animalId)
    match create env.validate store convId user body.receiverId body.animalId
        body.message now with
    | none => (SendReply.serverError, store)
    | some (newMessage, store1) => (SendReply.created newMessage, store1)

/-- One send request as it reaches the server. -/
structure SendRequest where
  env : Collaborators
  user : JSString
  body : SendBody
  now : Nat

/-- The message collection after a sequence of send requests. -/
def sendAll (store : List Message) (reqs : List SendRequest) : List Message :=
  reqs.foldl (fun s q => (postMessage q.env s q.user q.body q.now).2) store

/-- A send request succeeds on `store` when the handler answers 201. -/
def Succeeds (store : List Message) (q : SendRequest) : Prop :=
  ∃ m, (postMessage q.env store q.user q.body q.now).1 = SendReply.created m

/-- Every request of the sequence succeeds on the collection it meets. -/
def AllSucceed : List Message → List SendRequest → Prop
  | _, [] => True
  | store, q :: qs =>
    Succeeds store q ∧ AllSucceed (postMessage q.env store q.user q.body q.now).2 qs

/-- One entry of the conversation list: the object literal stored in
`conversationsMap`. Populated references are kept as their `_id`. -/
structure Summary where
  conversationId : JSString
  otherUser : JSString
  animal : JSString
  lastMessage : Message
  unreadCount : Nat
deriving DecidableEq, Repr

/-- A JavaScript `Map` from conversation id to summary: its entries in
insertion order. -/
abbrev ConvMap := List (JSString × Summary)

/-- The lookup `Map.prototype.get`. -/
def mapGet : ConvMap → JSString → Option Summary
  | [], _ => none
  | (k1, v1) :: rest, k => if k1 = k then some v1 else mapGet rest k

/-- The test `Map.prototype.has`. -/
def mapHas (m : ConvMap) (k : JSString) : Bool := (mapGet m k).isSome

/-- The update `Map.prototype.set`: an existing key keeps its position, a new
key goes last. -/
def mapSet : ConvMap → JSString → Summary → ConvMap
  | [], k, v => [(k, v)]
  | (k1, v1) :: rest, k, v =>
    if k1 = k then (k, v) :: rest else (k1, v1) :: mapSet rest k v

/-- The values `Array.from(map.values())`. -/
def mapValues (m : ConvMap) : List Summary := m.map Prod.snd

/-- The object literal a conversation starts with when `msg` is its first
message in the scan. -/
def newSummary (user : JSString) (msg : Message) : Summary :=
  let otherUser := if msg.sender = user then msg.receiver else msg.sender
  { conversationId := msg.conversationId, otherUser := otherUser, animal := msg.animal,
    lastMessage := msg, unreadCount := 0 }

/-- The two conditional writes through the reference `conv`. -/
def updateSummary (user : JSString) (msg : Message) (conv : Summary) : Summary :=
  let conv1 :=
    if msg.createdAt > conv.lastMessage.createdAt then { conv with lastMessage := msg }
    else conv
  if !msg.isRead && decide (msg.receiver = user) then
    { conv1 with unreadCount := conv1.unreadCount + 1 }
  else conv1

/-- The body of `messages.forEach(msg => ...)` for the viewer `user`; the
writes through the reference `conv` are writes to the entry of the map. -/
def forEachStep (user : JSString) (conversationsMap : ConvMap) (msg : Message) : ConvMap :=
  let convId := msg.conversationId
  let map1 :=
    if !mapHas conversationsMap convId then
      mapSet conversationsMap convId (newSummary user msg)
    else conversationsMap
  match mapGet map1 convId with
  | none => map1
  | some conv => mapSet map1 convId (updateSummary user msg conv)

/-- The grouping scan: `forEach` over a list of messages from an empty map. -/
def groupScan (user : JSString) (messages : List Message) : List Summary :=
  mapValues (messages.foldl (forEachStep user) [])

/-- The order of `.sort({ createdAt: -1 })`: `a` may stay before `b`. -/
def createdAtDesc (a b : Message) : Prop := b.createdAt ≤ a.createdAt

instance : DecidableRel createdAtDesc :=
  fun a b => inferInstanceAs (Decidable (b.createdAt ≤ a.createdAt))

instance : IsTotal Message createdAtDesc :=
  ⟨fun a b => by unfold createdAtDesc; exact Nat.le_total _ _⟩

instance : IsTrans Message createdAtDesc :=
  ⟨fun a b c h1 h2 => by unfold createdAtDesc at *; exact Nat.le_trans h2 h1⟩

/-- The query `Message.find({ $or: [{ sender }, { receiver }] }).sort({ createdAt: -1 })`:
the messages of `user`, newest first (equal timestamps keep insertion order).
The `populate` calls attach the referenced documents; the embedding keeps the
reference, which is the `_id` the handler reads back. -/
def findByParticipant (store : List Message) (user : JSString) : List Message :=
  List.insertionSort createdAtDesc
    (store.filter (fun m => decide (m.sender = user) || decide (m.receiver = user)))

/-- The handler `router.get('/conversations')` for the authenticated `user`. -/
def getConversations (store : List Message) (user : JSString) : List Summary :=
  groupScan user (findByParticipant store user)

/-- The users that appear as sender or receiver of a message of conversation `c`. -/
def groupParticipants (store : List Message) (c : JSString) : Finset JSString :=
  ((store.filter (fun m => decide (m.conversationId = c))).flatMap
    (fun m => [m.sender, m.receiver])).toFinset

/-- The unread test of the scan, restricted to conversation `c`. -/
def unreadIn (c user : JSString) (m : Message) : Bool :=
  decide (m.conversationId = c) && decide (m.receiver = user) && !m.isRead

/-- The number of unread messages of conversation `c` addressed to `user`. -/
def unreadFor (store : List Message) (c user : JSString) : Nat :=
  (store.filter (unreadIn c user)).length

/-- What the scan has established about the map once the messages `seen` are
processed: keys are distinct, every seen conversation has an entry, and each
entry carries its key, a newest seen message of its conversation, and the
count of seen unread messages addressed to the viewer. -/
def ScanInv (user : JSString) (seen : List Message) (m : ConvMap) : Prop :=
  (m.map Prod.fst).Nodup ∧
  (∀ x ∈ seen, (mapGet m x.conversationId).isSome = true) ∧
  ∀ k v, mapGet m k = some v →
    v.conversationId = k ∧ v.lastMessage ∈ seen ∧ v.lastMessage.conversationId = k ∧
    (∀ x ∈ seen, x.conversationId = k → x.createdAt ≤ v.lastMessage.createdAt) ∧
    v.unreadCount = (seen.filter (unreadIn k user)).length

/-- The grouping property of a message collection: the messages that share a
conversation id have exactly two participants between them and one resource. -/
def GroupingInvariant (store : List Message) : Prop :=
  ∀ m ∈ store, (groupParticipants store m.conversationId).card = 2 ∧
    ∀ m1 ∈ store, m1.conversationId = m.conversationId → m1.animal = m.animal

instance (store : List Message) : Decidable (GroupingInvariant store) := by
  unfold GroupingInvariant; infer_instance

/-- A message stored under the id computed from its own sender, receiver and
animal, between two different users whose ids do not contain the separator. -/
def Resolved (m : Message) : Prop :=
  m.conversationId = resolve m.sender m.receiver m.animal ∧
    m.sender ≠ m.receiver ∧ sep ∉ m.sender ∧ sep ∉ m.receiver

/-- A send request that lets the server compute the conversation id (the field
is absent, empty, or already the computed id), between two different users
whose ids do not contain the separator. -/
def ResolvedSend (q : SendRequest) : Prop :=
  orElse q.body.conversationId (resolve q.user q.body.receiverId q.body.animalId) =
      resolve q.user q.body.receiverId q.body.animalId ∧
    q.user ≠ q.body.receiverId ∧ sep ∉ q.user ∧ sep ∉ q.body.receiverId

instance (q : SendRequest) : Decidable (ResolvedSend q) := by
  unfold ResolvedSend; infer_instance

/-- Collaborators that find every listing and accept every message. -/
def envAll : Collaborators := { findById := fun _ => FindResult.doc, validate := fun _ => true }

/-- A send request under `envAll`. -/
def mkSend (user receiverId animalId message : JSString) (conversationId : Option JSString)
    (now : Nat) : SendRequest :=
  { env := envAll, user := user, now := now,
    body := { receiverId := receiverId, animalId := animalId, message := message,
              conversationId := conversationId } }

/-- A small collection: `U1` asks `U2` about `R7`, `U2` answers, and `U3`
writes to `U2` about `R8`. -/
def demoStore : List Message :=
  sendAll []
    [mkSend (str "U1") (str "U2") (str "R7") (str "Is this still available?") none 1,
     mkSend (str "U2") (str "U1") (str "R7") (str "yes") (some (str "U1_U2_R7")) 2,
     mkSend (str "U3") (str "U2") (str "R8") (str "hello") none 3]

/-- The summary of the conversation about `R7` in the list of `U2` over `demoStore`. -/
def demoSummary : Summary :=
  { conversationId := str "U1_U2_R7", otherUser := str "U1", animal := str "R7",
    lastMessage :=
      { conversationId := str "U1_U2_R7", sender := str "U2", receiver := str "U1",
        animal := str "R7", message := str "yes", isRead := false, createdAt := 2 },
    unreadCount := 1 }

/-- The document a successful send request persists. -/
def sentMessage (q : SendRequest) : Message :=
  { conversationId :=
      orElse q.body.conversationId (resolve q.user q.body.receiverId q.body.animalId),
    sender := q.user, receiver := q.body.receiverId, animal := q.body.animalId,
    message := q.body.message, isRead := false, createdAt := q.now }

/-- A message between `a` and `b` (in either direction) about resource `r`. -/
def Between (a b r : JSString) (x : Message) : Prop :=
  ((x.sender = a ∧ x.receiver = b) ∨ (x.sender = b ∧ x.receiver = a)) ∧ x.animal = r

instance (a b r : JSString) (x : Message) : Decidable (Between a b r x) := by
  unfold Between; infer_instance

/-- A send request between `a` and `b` (in either direction) about resource `r`. -/
def ExchangeSend (a b r : JSString) (q : SendRequest) : Prop :=
  ((q.user = a ∧ q.body.receiverId = b) ∨ (q.user = b ∧ q.body.receiverId = a)) ∧
    q.body.animalId = r

instance (a b r : JSString) (q : SendRequest) : Decidable (ExchangeSend a b r q) := by
  unfold ExchangeSend; infer_instance

/-- A send request whose conversation id is left to the server: the field is
absent, empty, or equal to `c`, the computed id. -/
def ComputedId (c : JSString) (q : SendRequest) : Prop :=
  orElse q.body.conversationId c = c

instance (c : JSString) (q : SendRequest) : Decidable (ComputedId c q) := by
  unfold ComputedId; infer_instance

/-- A collection holding one unread message of `U3` to `U2` about `R8`, sent
with the supplied conversation id `U1_U2_R7`. -/
def foreignStore : List Message :=
  sendAll [] [mkSend (str "U3") (str "U2") (str "R8") (str "hello") (some (str "U1_U2_R7")) 1]

/-- The order of `.sort({ createdAt: 1 })`: `a` may stay before `b`. -/
def createdAtAsc (a b : Message) : Prop := a.createdAt ≤ b.createdAt

instance : DecidableRel createdAtAsc :=
  fun a b => inferInstanceAs (Decidable (a.createdAt ≤ b.createdAt))

instance : IsTotal Message createdAtAsc :=
  ⟨fun a b => by unfold createdAtAsc; exact Nat.le_total _ _⟩

instance : IsTrans Message createdAtAsc :=
  ⟨fun a b c h1 h2 => by unfold createdAtAsc at *; exact Nat.le_trans h1 h2⟩

/-- The query `Message.find({ conversationId }).sort({ createdAt: 1 })`: the
messages of conversation `c`, oldest first (equal timestamps keep insertion
order). The `populate` calls are kept as the references, as in
`findByParticipant`. -/
def findByConversation (store : List Message) (c : JSString) : List Message :=
  List.insertionSort createdAtAsc (store.filter (fun m => decide (m.conversationId = c)))

/-- The write of `Message.updateMany` on one document: a document matching the
filter `{ conversationId, receiver, isRead: false }` gets `isRead: true`. -/
def markOne (c viewer : JSString) (m : Message) : Message :=
  if unreadIn c viewer m then { m with isRead := true } else m

/-- The call `Message.updateMany({ conversationId, receiver, isRead: false },
{ isRead: true })`: the collection afterwards and the number of documents
modified. -/
def updateMany (store : List Message) (c viewer : JSString) : List Message × Nat :=
  (store.map (markOne c viewer), (store.filter (unreadIn c viewer)).length)

/-- The handler `router.get('/conversation/:conversationId')` for the
authenticated `viewer`: the messages it answers with (fetched first) and the
message collection after the update. -/
def getConversation (store : List Message) (c viewer : JSString) :
    List Message × List Message :=
  let messages := findByConversation store c
  let store1 := (updateMany store c viewer).1
  (messages, store1)

/-- The handler `router.post('/conversation')` as a step on the message
collection: it makes no call on the `Message` model. -/
def conversationRequest (env : Collaborators) (store : List Message)
    (user receiverId animalId : JSString) : ConversationReply × List Message :=
  (postConversation env user receiverId animalId, store)

/-- Modelled from the spec: the schema of the `Message` model
(`models/Message.js`, not part of the sources) requires of a new document that
its body is non-empty text. The spec records that the source has no guard
against a user writing to themselves, so the validation has none. -/
def schemaValidate (m : Message) : Bool := !m.message.isEmpty

/-- Collaborators over a listings collection `listings` (the ids of the stored
animals) whose message validation is `schemaValidate`. -/
def envListings (listings : List JSString) : Collaborators :=
  { findById := fun animalId =>
      if animalId ∈ listings then FindResult.doc else FindResult.null,
    validate := schemaValidate }

/-- The message `U1` sends to `U2` about `R7`, unread. -/
def askMessage : Message :=
  { conversationId := str "U1_U2_R7", sender := str "U1", receiver := str "U2",
    animal := str "R7", message := str "Is this still available?", isRead := false,
    createdAt := 1 }

/-- A message `U1` sent to themselves about `R7`, unread. -/
def selfMessage : Message :=
  { conversationId := str "U1_U1_R7", sender := str "U1", receiver := str "U1",
    animal := str "R7", message := str "note", isRead := false, createdAt := 1 }

/-- The handler `router.get('/conversations')` as a step on the message
collection: its only call on the `Message` model is a `find`. -/
def conversationsRequest (store : List Message) (user : JSString) :
    List Summary × List Message :=
  (getConversations store user, store)

/-- A request to one of the four messaging routes. -/
inductive Request where
  | resolve (env : Collaborators) (user receiverId animalId : JSString)
  | send (q : SendRequest)
  | fetch (c viewer : JSString)
  | list (user : JSString)

/-- The message collection after one request is served. -/
def serve (store : List Message) : Request → List Message
  | Request.resolve env user receiverId animalId =>
    (conversationRequest env store user receiverId animalId).2
  | Request.send q => (postMessage q.env store q.user q.body q.now).2
  | Request.fetch c viewer => (getConversation store c viewer).2
  | Request.list user => (conversationsRequest store user).2

/-- Two documents that agree on every field but `isRead`. -/
def SameButRead (m m1 : Message) : Prop := m1 = { m with isRead := m1.isRead }

/-- JavaScript truthiness of an optional string: `null` and `''` are falsy. -/
def truthy : Option JSString → Bool
  | none => false
  | some [] => false
  | some (_ :: _) => true

/-- What becomes of the request `GET /api/messages/conversation/<id>` the
Messages page sends: it reaches the handler of
`router.get('/conversation/:conversationId')` with some
`req.params.conversationId`, or it reaches no route of the router (the page's
`catch` then logs the failure). -/
inductive Routed where
  | param (conversationId : JSString)
  | notRouted
deriving DecidableEq, Repr

/-- The function `fetchMessages` of the Messages page for the logged-in `user`:
without a selected conversation it returns at once; otherwise it requests the
URL built by putting the selected id, as it is, behind
`/api/messages/conversation/`, and shows the answer. How the URL travels is
decided by the HTTP client (`apiClient`, not part of the sources) and the
server's router, so `route` is a parameter: what the route receives for the id
put into the URL. The result is the new `messages` state (if set) and the
server's message collection afterwards. -/
def fetchMessages (route : JSString → Routed) (selectedConversation : Option JSString)
    (store : List Message) (user : JSString) : Option (List Message) × List Message :=
  if truthy selectedConversation then
    match selectedConversation with
    | some c =>
      match route c with
      | Routed.param c1 =>
        (some (getConversation store c1 user).1, (getConversation store c1 user).2)
      | Routed.notRouted => (none, store)
    | none => (none, store)
  else (none, store)

/-- One tick of `setInterval(fetchMessages, 3000)`. -/
def pollTick (route : JSString → Routed) (selectedConversation : Option JSString)
    (store : List Message) (user : JSString) : Option (List Message) × List Message :=
  fetchMessages route selectedConversation store user

/-- A code unit that any client sends as it is and that has no meaning in a
URL: a letter, a digit, `-` or `_`. -/
def isWordUnit (u : Nat) : Bool :=
  (decide (48 ≤ u) && decide (u ≤ 57)) || (decide (65 ≤ u) && decide (u ≤ 90)) ||
    (decide (97 ≤ u) && decide (u ≤ 122)) || decide (u = 45) || decide (u = 95)

/-- The transport of the examples. In a URL the path ends at the first `?` or
`#`; when the part of the id before that is a non-empty word of letters,
digits, `-` and `_`, the route receives that part. Ids of any other form do
not occur in the examples, and this transport delivers nothing for them. -/
def wordRoute (c : JSString) : Routed :=
  let path := c.takeWhile (fun u => decide (u ≠ 63) && decide (u ≠ 35))
  if !path.isEmpty && path.all isWordUnit then Routed.param path else Routed.notRouted

/-- The run in which a send request is served between the two awaited calls of
`router.get('/conversation/:conversationId')`: the fetch, then the send, then
the update. The result is the handler's answer and the collection afterwards. -/
def openWithSendBetween (store : List Message) (c viewer : JSString) (q : SendRequest) :
    List Message × List Message :=
  let messages := findByConversation store c
  let store1 := (postMessage q.env store q.user q.body q.now).2
  let store2 := (updateMany store1 c viewer).1
  (messages, store2)

/-- The second message `U1` sends to `U2` about `R7`. -/
def followUp : SendRequest :=
  mkSend (str "U1") (str "U2") (str "R7") (str "Hello?") none 2

/-- The reply of `router.get('/conversation/:conversationId')`: the handler
answers `res.json(messages)` with status 200 whatever the query found; its only
other reply is the 500 of the `catch` block, for a database call that throws,
which the collection model leaves out. -/
inductive FetchReply where
  | ok (messages : List Message)
  | serverError
deriving DecidableEq, Repr

/-- The reply of `router.get('/conversation/:conversationId')` to `viewer`. -/
def getConversationReply (store : List Message) (c viewer : JSString) : FetchReply :=
  FetchReply.ok (getConversation store c viewer).1

/-- Where the scan takes the fixed fields of an entry from: a seen message of
the entry's conversation supplies `otherUser` and `animal`. -/
def ScanOrigin (user : JSString) (seen : List Message) (m : ConvMap) : Prop :=
  ∀ k v, mapGet m k = some v → ∃ x ∈ seen, x.conversationId = k ∧
    v.otherUser = (if x.sender = user then x.receiver else x.sender) ∧ v.animal = x.animal

/-- The code units `String.prototype.trim` removes: white space and line
terminators. -/
def jsWhitespace (u : Nat) : Bool :=
  decide (u ∈ [9, 10, 11, 12, 13, 32, 160, 5760, 8232, 8233, 8239, 8287, 12288, 65279]) ||
    (decide (8192 ≤ u) && decide (u ≤ 8202))

/-- The body `handleSendMessage` of the Messages page posts to `/api/messages`,
if it posts: nothing for a blank text, for no selected conversation, or when
the selected id is not in the loaded conversation list. -/
def handleSendMessage (conversations : List Summary) (selectedConversation : Option JSString)
    (newMessage : JSString) : Option SendBody :=
  if newMessage.all jsWhitespace || !truthy selectedConversation then none
  else
    match conversations.find? (fun c => decide (some c.conversationId = selectedConversation)) with
    | none => none
    | some conversation =>
      some { receiverId := conversation.otherUser, animalId := conversation.animal,
             message := newMessage, conversationId := selectedConversation }

/-- The part of the Messages page the polling effect works on: whether the
page is mounted, the `selectedConversation` state, the intervals that are set
and not cleared, the interval the cleanup function returned by the last effect
run will clear (if that run returned one), and the id the next `setInterval`
returns. -/
structure Page where
  mounted : Bool
  selectedConversation : Option JSString
  intervals : List Nat
  cleanup : Option Nat
  nextInterval : Nat
deriving DecidableEq, Repr

/-- The body of `useEffect(() => { ... }, [selectedConversation])`: with a
selected conversation it sets an interval and returns the function that clears
it; otherwise it does nothing and returns no cleanup. -/
def runEffect (p : Page) : Page :=
  if truthy p.selectedConversation then
    { p with intervals := p.nextInterval :: p.intervals, cleanup := some p.nextInterval,
             nextInterval := p.nextInterval + 1 }
  else { p with cleanup := none }

/-- The cleanup of the previous effect run, `() => clearInterval(interval)`,
which React calls before the next run of the effect and on unmount. -/
def runCleanup (p : Page) : Page :=
  match p.cleanup with
  | none => p
  | some interval =>
    { p with intervals := p.intervals.filter (fun i => decide (i ≠ interval)),
             cleanup := none }

/-- The page after its first render: nothing selected, the effect has run once. -/
def mountPage : Page :=
  runEffect { mounted := true, selectedConversation := none, intervals := [],
              cleanup := none, nextInterval := 0 }

/-- The call `setSelectedConversation(c)`: a changed value re-renders the
mounted page, so the previous cleanup runs and then the effect; an unchanged
value leaves the effect alone. -/
def setSelectedConversation (p : Page) (c : JSString) : Page :=
  if p.mounted && decide (p.selectedConversation ≠ some c) then
    runEffect (runCleanup { p with selectedConversation := some c })
  else p

/-- Leaving the view: React unmounts the page and runs the pending cleanup. -/
def unmountPage (p : Page) : Page :=
  if p.mounted then { runCleanup p with mounted := false } else p

/-- The steps of the page: a conversation is selected (first selection or a
switch), or the view is left. -/
inductive PageEvent where
  | select (c : JSString)
  | leave
deriving DecidableEq, Repr

/-- One step of the page. -/
def pageStep (p : Page) : PageEvent → Page
  | PageEvent.select c => setSelectedConversation p c
  | PageEvent.leave => unmountPage p

/-- The page after a sequence of steps from its first render. -/
def pageRun (events : List PageEvent) : Page := events.foldl pageStep mountPage

/-- The invariant of the polling effect: the active intervals are exactly the
one the pending cleanup clears, a pending cleanup belongs to a mounted page
with a selected conversation, and interval ids are below the next fresh id. -/
def PageInv (p : Page) : Prop :=
  p.intervals = p.cleanup.toList ∧
    (p.cleanup.isSome = true → truthy p.selectedConversation = true ∧ p.mounted = true) ∧
    ∀ i ∈ p.intervals, i < p.nextInterval

/-- A JSON value of a document field, as far as the pages read it. -/
inductive JSValue where
  | str (s : JSString)
  | num (n : Nat)
  | bool (b : Bool)
  | arr (xs : List JSString)
deriving DecidableEq, Repr

/-- A JavaScript object: its own properties. -/
abbrev JSObject := List (String × JSValue)

/-- The property read `o.name`; a property the object does not have reads as
`undefined`, here `none`. -/
def getProp (o : JSObject) (name : String) : Option JSValue := o.lookup name

/-- The field selection of `populate(path, select)`: the populated document
carries `_id` and the selected fields only. -/
def populateSelect (doc : JSObject) (fields : List String) : JSObject :=
  doc.filter (fun e => e.1 == "_id" || fields.contains e.1)

/-- The `animal` of a conversation summary: `populate('animal', 'title images')`. -/
def populatedAnimal (doc : JSObject) : JSObject := populateSelect doc ["title", "images"]

/-- The function `getUserRole` of the Messages page, on the `animal` of the
conversation and the `_id` of the logged-in user. -/
def getUserRole (animal : JSObject) (userId : JSString) : JSString :=
  if getProp animal "sellerId" = some (JSValue.str userId) then str "Seller"
  else str "Buyer"

/-- An animal document whose seller is `U1`. -/
def demoAnimal : JSObject :=
  [("_id", JSValue.str (str "R7")), ("seller", JSValue.str (str "U1")),
   ("title", JSValue.str (str "Goat")), ("images", JSValue.arr [str "goat.jpg"]),
   ("price", JSValue.num 100), ("isAvailable", JSValue.bool true)]

/-- A hexadecimal digit, as a code unit. -/
def isHexDigit (u : Nat) : Bool :=
  (decide (48 ≤ u) && decide (u ≤ 57)) || (decide (65 ≤ u) && decide (u ≤ 70)) ||
    (decide (97 ≤ u) && decide (u ≤ 102))

/-- A string written as an `ObjectId`: 24 hexadecimal digits (the examples use
no id of another form a driver might accept). -/
def isObjectId (s : JSString) : Bool := decide (s.length = 24) && s.all isHexDigit

/-- Collaborators over a listings collection keyed by `ObjectId` (the ids of the
stored animals), with `schemaValidate` for the messages: `Animal.findById`
throws a cast error for an id that is not written as an `ObjectId`, yields
`null` for a well-formed id that is not stored, and the document otherwise. -/
def envObjectIds (listings : List JSString) : Collaborators :=
  { findById := fun animalId =>
      if isObjectId animalId then
        if animalId ∈ listings then FindResult.doc else FindResult.null
      else FindResult.throws,
    validate := schemaValidate }

/-- The id of a stored animal, written as an `ObjectId`. -/
def goatId : JSString := str "64b7f0c2a1d3e4f5a6b7c8d9"

/-- A well-formed id under which no animal is stored. -/
def absentId : JSString := str "0123456789abcdef01234567"

/-! ## The conversation id -/

theorem strLt_irrefl (a : JSString) : strLt a a = false := by
  induction a with
  | nil => rfl
  | cons x xs ih => simp [strLt, ih]

theorem strLt_asymm : ∀ a b : JSString, strLt a b = true → strLt b a = false
  | [], [], h => by simp [strLt] at h
  | [], _ :: _, _ => by simp [strLt]
  | _ :: _, [], h => by simp [strLt] at h
  | x :: xs, y :: ys, h => by
    simp only [strLt] at h ⊢
    by_cases h1 : x < y
    · have h2 : ¬ y < x := by omega
      simp [h2, h1]
    · by_cases h2 : y < x
      · simp [h1, h2] at h
      · simp only [h1, h2, if_false] at h ⊢
        exact strLt_asymm xs ys h

theorem strLt_total : ∀ a b : JSString, strLt a b = false → strLt b a = false → a = b
  | [], [], _, _ => rfl
  | [], _ :: _, h, _ => by simp [strLt] at h
  | _ :: _, [], _, h => by simp [strLt] at h
  | x :: xs, y :: ys, h1, h2 => by
    simp only [strLt] at h1 h2
    by_cases hxy : x < y
    · simp [hxy] at h1
    · by_cases hyx : y < x
      · simp [hyx] at h2
      · simp only [hxy, hyx, if_false] at h1 h2
        have hx : x = y := by omega
        rw [hx, strLt_total xs ys h1 h2]

theorem strLt_iff_lex : ∀ a b : JSString, strLt a b = true ↔ List.Lex (fun x y => x < y) a b
  | [], [] => by simp [strLt]
  | [], _ :: _ => by simp [strLt, List.Lex.nil]
  | _ :: _, [] => by simp [strLt]
  | x :: xs, y :: ys => by
    simp only [strLt]
    by_cases h1 : x < y
    · simp [h1, List.Lex.rel h1]
    · by_cases h2 : y < x
      · simp only [h1, h2, if_false, if_true]
        constructor
        · intro h; simp at h
        · intro h
          cases h with
          | cons h => omega
          | rel h => omega
      · have hx : x = y := by omega
        subst hx
        simp only [h1, if_false]
        rw [strLt_iff_lex xs ys]
        constructor
        · exact List.Lex.cons
        · intro h
          cases h with
          | cons h => exact h
          | rel h => omega

theorem participants_eq (a b : JSString) :
    participants a b = if strLt b a = false then [a, b] else [b, a] := by
  simp [participants, jsSort, List.insertionSort, List.orderedInsert, strLe]

theorem resolve_eq (a b r : JSString) :
    resolve a b r =
      if strLt b a = false then a ++ [sep] ++ b ++ [sep] ++ r
      else b ++ [sep] ++ a ++ [sep] ++ r := by
  unfold resolve
  rw [participants_eq]
  by_cases h : strLt b a = false <;> simp [h]

/-- C1: the conversation id does not depend on which of the two participants
is the caller. -/
theorem resolve_symmetric (a b r : JSString) : resolve a b r = resolve b a r := by
  rw [resolve_eq, resolve_eq]
  rcases hba : strLt b a with _ | _ <;> rcases hab : strLt a b with _ | _
  · rw [strLt_total a b hab hba]
  · simp
  · simp
  · rw [strLt_asymm b a hba] at hab
    exact absurd hab (by simp)

/-- C2: the conversation id is `lo_hi_r`, where `lo` and `hi` are the two
participants with `lo` before or equal to `hi` in code-unit order; the ids
`U1`, `U2` and resource `R7` give `U1_U2_R7` in both orders. -/
theorem resolve_ordered (a b r : JSString) :
    (∃ lo hi, ((lo = a ∧ hi = b) ∨ (lo = b ∧ hi = a)) ∧
      (List.Lex (fun x y => x < y) lo hi ∨ lo = hi) ∧
      resolve a b r = lo ++ [sep] ++ hi ++ [sep] ++ r) ∧
    resolve (str "U1") (str "U2") (str "R7") = str "U1_U2_R7" ∧
    resolve (str "U2") (str "U1") (str "R7") = str "U1_U2_R7" := by
  refine ⟨?_, by decide, by decide⟩
  by_cases h1 : strLt b a = false
  · refine ⟨a, b, Or.inl ⟨rfl, rfl⟩, ?_, by rw [resolve_eq]; simp [h1]⟩
    by_cases h2 : strLt a b = true
    · exact Or.inl ((strLt_iff_lex a b).1 h2)
    · exact Or.inr (strLt_total a b (by simpa using h2) h1)
  · exact ⟨b, a, Or.inr ⟨rfl, rfl⟩, Or.inl ((strLt_iff_lex b a).1 (by simpa using h1)),
      by rw [resolve_eq]; simp [h1]⟩

theorem resolve_swap (a b r : JSString) : resolve b a r = resolve a b r := by
  rw [resolve_eq, resolve_eq]
  by_cases h1 : strLt b a = false
  · by_cases h2 : strLt a b = false
    · rw [strLt_total a b h2 h1]
    · simp [h1, h2]
  · have h3 : strLt a b = false := strLt_asymm b a (by simpa using h1)
    simp [h1, h3]

theorem split_at_sep (s : Nat) :
    ∀ (x x1 y y1 : List Nat), s ∉ x → s ∉ x1 → x ++ s :: y = x1 ++ s :: y1 →
      x = x1 ∧ y = y1
  | [], [], _, _, _, _, h => by simpa using h
  | [], c :: cs, _, _, _, h2, h => by
    simp only [List.nil_append, List.cons_append, List.cons.injEq] at h
    exact absurd (by rw [h.1]; simp) h2
  | c :: cs, [], _, _, h1, _, h => by
    simp only [List.nil_append, List.cons_append, List.cons.injEq] at h
    exact absurd (by rw [← h.1]; simp) h1
  | c :: cs, d :: ds, y, y1, h1, h2, h => by
    simp only [List.cons_append, List.cons.injEq] at h
    have ih := split_at_sep s cs ds y y1
      (fun hm => h1 (List.mem_cons_of_mem _ hm)) (fun hm => h2 (List.mem_cons_of_mem _ hm)) h.2
    exact ⟨by rw [h.1, ih.1], ih.2⟩

theorem resolve_shape (a b r : JSString) :
    ∃ lo hi, ((lo = a ∧ hi = b) ∨ (lo = b ∧ hi = a)) ∧
      resolve a b r = lo ++ sep :: (hi ++ sep :: r) := by
  by_cases h1 : strLt b a = false
  · exact ⟨a, b, Or.inl ⟨rfl, rfl⟩, by rw [resolve_eq]; simp [h1]⟩
  · exact ⟨b, a, Or.inr ⟨rfl, rfl⟩, by rw [resolve_eq]; simp [h1]⟩

theorem resolve_injective (a b r a1 b1 r1 : JSString)
    (ha : sep ∉ a) (hb : sep ∉ b) (ha1 : sep ∉ a1) (hb1 : sep ∉ b1)
    (h : resolve a b r = resolve a1 b1 r1) :
    ((a = a1 ∧ b = b1) ∨ (a = b1 ∧ b = a1)) ∧ r = r1 := by
  obtain ⟨lo, hi, hp, e⟩ := resolve_shape a b r
  obtain ⟨lo1, hi1, hp1, e1⟩ := resolve_shape a1 b1 r1
  rw [e, e1] at h
  have hlo : sep ∉ lo := by rcases hp with ⟨x, _⟩ | ⟨x, _⟩ <;> rw [x] <;> assumption
  have hhi : sep ∉ hi := by rcases hp with ⟨_, x⟩ | ⟨_, x⟩ <;> rw [x] <;> assumption
  have hlo1 : sep ∉ lo1 := by rcases hp1 with ⟨x, _⟩ | ⟨x, _⟩ <;> rw [x] <;> assumption
  have hhi1 : sep ∉ hi1 := by rcases hp1 with ⟨_, x⟩ | ⟨_, x⟩ <;> rw [x] <;> assumption
  obtain ⟨q1, q2⟩ := split_at_sep sep lo lo1 _ _ hlo hlo1 h
  obtain ⟨q3, q4⟩ := split_at_sep sep hi hi1 _ _ hhi hhi1 q2
  refine ⟨?_, q4⟩
  rcases hp with ⟨x1, x2⟩ | ⟨x1, x2⟩ <;> rcases hp1 with ⟨y1, y2⟩ | ⟨y1, y2⟩ <;>
    subst x1 x2 y1 y2 <;> simp [q1, q3]

/-- C3: for identifiers without the separator `_`, equal conversation ids come
from the same unordered pair of participants and the same resource. -/
theorem resolve_distinct (a b r a1 b1 r1 : JSString)
    (ha : sep ∉ a) (hb : sep ∉ b) (_hr : sep ∉ r)
    (ha1 : sep ∉ a1) (hb1 : sep ∉ b1) (_hr1 : sep ∉ r1)
    (h : resolve a b r = resolve a1 b1 r1) :
    ((a = a1 ∧ b = b1) ∨ (a = b1 ∧ b = a1)) ∧ r = r1 :=
  resolve_injective a b r a1 b1 r1 ha hb ha1 hb1 h

theorem resolve_distinct_witness :
    ((str "U2" = str "U1" ∧ str "U1" = str "U2") ∨
      (str "U2" = str "U2" ∧ str "U1" = str "U1")) ∧ str "R7" = str "R7" :=
  resolve_distinct (str "U2") (str "U1") (str "R7") (str "U1") (str "U2") (str "R7")
    (by decide) (by decide) (by decide) (by decide) (by decide) (by decide) (by decide)

/-! ## Sending -/

theorem postMessage_created (env : Collaborators) (store : List Message) (user : JSString)
    (body : SendBody) (now : Nat) (m : Message)
    (h : (postMessage env store user body now).1 = SendReply.created m) :
    m = { conversationId :=
            orElse body.conversationId (resolve user body.receiverId body.animalId),
          sender := user, receiver := body.receiverId, animal := body.animalId,
          message := body.message, isRead := false, createdAt := now } ∧
      (postMessage env store user body now).2 = store ++ [m] := by
  unfold postMessage create at h ⊢
  cases hf : env.findById body.animalId <;> simp only [hf] at h ⊢
  · by_cases hv : env.validate
        { conversationId :=
            orElse body.conversationId (resolve user body.receiverId body.animalId),
          sender := user, receiver := body.receiverId, animal := body.animalId,
          message := body.message, isRead := false, createdAt := now } = true
    · simp only [hv, if_true] at h ⊢
      simp only [SendReply.created.injEq] at h
      subst h
      exact ⟨rfl, rfl⟩
    · simp [hv] at h
  · simp at h
  · simp at h

theorem postMessage_store (env : Collaborators) (store : List Message) (user : JSString)
    (body : SendBody) (now : Nat) :
    (postMessage env store user body now).2 = store ∨
      ∃ m, (postMessage env store user body now).1 = SendReply.created m ∧
        (postMessage env store user body now).2 = store ++ [m] := by
  cases hr : (postMessage env store user body now).1 with
  | created m => exact Or.inr ⟨m, rfl, (postMessage_created env store user body now m hr).2⟩
  | notFound =>
    left
    unfold postMessage at hr ⊢
    cases hf : env.findById body.animalId <;> simp only [hf] at hr ⊢
    split <;> simp_all
  | serverError =>
    left
    unfold postMessage at hr ⊢
    cases hf : env.findById body.animalId <;> simp only [hf] at hr ⊢
    split <;> simp_all

/-- C4 (counterexample): a send request that supplies the conversation id `x`
succeeds and persists the message under `x`, not under the id computed from
sender, receiver and animal. -/
theorem send_supplied_id_counterexample :
    ∃ m, (postMessage envAll [] (str "U1")
        { receiverId := str "U2", animalId := str "R7", message := str "hi",
          conversationId := some (str "x") } 0).1 = SendReply.created m ∧
      m.conversationId = str "x" ∧
      m.conversationId ≠ resolve m.sender m.receiver m.animal :=
  ⟨_, rfl, by decide, by decide⟩

/-- C4 (amended): a successful send persists the message under the computed id
of its own sender, receiver and animal when the request's conversation id is
absent or empty, and under the supplied id otherwise. -/
theorem send_conversationId (env : Collaborators) (store : List Message) (user : JSString)
    (body : SendBody) (now : Nat) (m : Message)
    (h : (postMessage env store user body now).1 = SendReply.created m) :
    (postMessage env store user body now).2 = store ++ [m] ∧
    m.sender = user ∧ m.receiver = body.receiverId ∧ m.animal = body.animalId ∧
    (body.conversationId = none ∨ body.conversationId = some [] →
      m.conversationId = resolve m.sender m.receiver m.animal) ∧
    (∀ c, body.conversationId = some c → c ≠ [] → m.conversationId = c) := by
  obtain ⟨hm, hs⟩ := postMessage_created env store user body now m h
  refine ⟨hs, by rw [hm], by rw [hm], by rw [hm], ?_, ?_⟩
  · intro hc
    rw [hm]
    rcases hc with hc | hc <;> simp [hc, orElse]
  · intro c hc hne
    rw [hm, hc]
    cases c with
    | nil => exact absurd rfl hne
    | cons x xs => rfl

theorem send_conversationId_witness :
    (postMessage envAll [] (str "U1")
        { receiverId := str "U2", animalId := str "R7", message := str "hi",
          conversationId := none } 0).2 =
      [] ++ [{ conversationId := str "U1_U2_R7", sender := str "U1", receiver := str "U2",
               animal := str "R7", message := str "hi", isRead := false, createdAt := 0 }] :=
  (send_conversationId envAll [] (str "U1")
    { receiverId := str "U2", animalId := str "R7", message := str "hi",
      conversationId := none } 0
    { conversationId := str "U1_U2_R7", sender := str "U1", receiver := str "U2",
      animal := str "R7", message := str "hi", isRead := false, createdAt := 0 }
    (by decide)).1

theorem sendAll_cons (store : List Message) (q : SendRequest) (qs : List SendRequest) :
    sendAll store (q :: qs) = sendAll (postMessage q.env store q.user q.body q.now).2 qs := by
  simp [sendAll]

theorem sendAll_resolved :
    ∀ (reqs : List SendRequest) (store : List Message), (∀ m ∈ store, Resolved m) →
      (∀ q ∈ reqs, ResolvedSend q) → ∀ m ∈ sendAll store reqs, Resolved m
  | [], store, hs, _ => by simpa [sendAll] using hs
  | q :: qs, store, hs, hq => by
    rw [sendAll_cons]
    apply sendAll_resolved qs _ _ (fun x hx => hq x (List.mem_cons_of_mem _ hx))
    rcases postMessage_store q.env store q.user q.body q.now with h | ⟨m, hm, h⟩
    · rw [h]; exact hs
    · rw [h]
      intro x hx
      rcases List.mem_append.1 hx with hx | hx
      · exact hs x hx
      · have hx1 : x = m := by simpa using hx
        obtain ⟨e, _⟩ := postMessage_created q.env store q.user q.body q.now m hm
        obtain ⟨r1, r2, r3, r4⟩ := hq q (List.mem_cons_self _ _)
        rw [hx1, e]
        exact ⟨r1, r2, r3, r4⟩

theorem mem_groupParticipants (store : List Message) (c x : JSString) :
    x ∈ groupParticipants store c ↔
      ∃ m ∈ store, m.conversationId = c ∧ (x = m.sender ∨ x = m.receiver) := by
  simp only [groupParticipants, List.mem_toFinset, List.mem_flatMap, List.mem_filter,
    decide_eq_true_eq, List.mem_cons, List.mem_singleton, List.not_mem_nil, or_false]
  constructor
  · rintro ⟨m, ⟨hm, hc⟩, hx⟩
    exact ⟨m, hm, hc, hx⟩
  · rintro ⟨m, hm, hc, hx⟩
    exact ⟨m, ⟨hm, hc⟩, hx⟩

theorem grouping_of_resolved (store : List Message) (h : ∀ m ∈ store, Resolved m) :
    GroupingInvariant store := by
  intro m hm
  obtain ⟨e, hne, hs, hr⟩ := h m hm
  have key : ∀ m1 ∈ store, m1.conversationId = m.conversationId →
      ((m1.sender = m.sender ∧ m1.receiver = m.receiver) ∨
        (m1.sender = m.receiver ∧ m1.receiver = m.sender)) ∧ m1.animal = m.animal := by
    intro m1 hm1 hc
    obtain ⟨e1, _, hs1, hr1⟩ := h m1 hm1
    rw [e1, e] at hc
    exact resolve_injective _ _ _ _ _ _ hs1 hr1 hs hr hc
  refine ⟨?_, fun m1 hm1 hc => (key m1 hm1 hc).2⟩
  have hset : groupParticipants store m.conversationId = {m.sender, m.receiver} := by
    ext x
    rw [mem_groupParticipants]
    simp only [Finset.mem_insert, Finset.mem_singleton]
    constructor
    · rintro ⟨m1, hm1, hc, hx⟩
      rcases (key m1 hm1 hc).1 with ⟨k1, k2⟩ | ⟨k1, k2⟩ <;> rcases hx with hx | hx <;>
        simp [hx, k1, k2]
    · intro hx
      exact ⟨m, hm, rfl, hx⟩
  rw [hset, Finset.card_pair hne]

/-- C5 (counterexample): each of these sequences of successful sends reaches a
store that breaks the grouping property: two sends that supply the same
conversation id `c` for different pairs of users and different animals; one
send of a user to themselves; and two sends of `U1` with computed ids, to
`U2_U3` about `R` and to `U2` about `U3_R`, which both compute `U1_U2_U3_R`. -/
theorem grouping_counterexample :
    (AllSucceed []
        [mkSend (str "U1") (str "U2") (str "R7") (str "hi") (some (str "c")) 1,
         mkSend (str "U3") (str "U4") (str "R8") (str "yo") (some (str "c")) 2] ∧
      ¬ GroupingInvariant (sendAll []
        [mkSend (str "U1") (str "U2") (str "R7") (str "hi") (some (str "c")) 1,
         mkSend (str "U3") (str "U4") (str "R8") (str "yo") (some (str "c")) 2])) ∧
    (AllSucceed [] [mkSend (str "U1") (str "U1") (str "R7") (str "hi") none 1] ∧
      ¬ GroupingInvariant
        (sendAll [] [mkSend (str "U1") (str "U1") (str "R7") (str "hi") none 1])) ∧
    (AllSucceed []
        [mkSend (str "U1") (str "U2_U3") (str "R") (str "hi") none 1,
         mkSend (str "U1") (str "U2") (str "U3_R") (str "yo") none 2] ∧
      ¬ GroupingInvariant (sendAll []
        [mkSend (str "U1") (str "U2_U3") (str "R") (str "hi") none 1,
         mkSend (str "U1") (str "U2") (str "U3_R") (str "yo") none 2])) := by
  refine ⟨⟨⟨⟨_, rfl⟩, ⟨_, rfl⟩, trivial⟩, by decide⟩, ⟨⟨⟨_, rfl⟩, trivial⟩, by decide⟩,
    ⟨⟨⟨_, rfl⟩, ⟨_, rfl⟩, trivial⟩, by decide⟩⟩

/-- C5 (amended): in every store reached from the empty store by send requests
that leave the conversation id to the server (absent, empty, or equal to the
computed id), between two different users whose ids are free of the separator,
the messages sharing a conversation id have exactly two participants between
them and the same animal. -/
theorem grouping_invariant_resolved (reqs : List SendRequest)
    (h : ∀ q ∈ reqs, ResolvedSend q) : GroupingInvariant (sendAll [] reqs) :=
  grouping_of_resolved _ (sendAll_resolved reqs [] (by simp) h)

theorem grouping_invariant_resolved_witness :
    GroupingInvariant (sendAll []
      [mkSend (str "U1") (str "U2") (str "R7") (str "hi") none 1,
       mkSend (str "U2") (str "U1") (str "R7") (str "yo") (some (str "U1_U2_R7")) 2]) :=
  grouping_invariant_resolved _ (by
    intro q hq
    simp only [List.mem_cons, List.mem_singleton, List.not_mem_nil, or_false] at hq
    rcases hq with hq | hq <;> subst hq <;> decide)

/-! ## The conversation list -/

theorem mapGet_mapSet (m : ConvMap) (k : JSString) (v : Summary) (k1 : JSString) :
    mapGet (mapSet m k v) k1 = if k = k1 then some v else mapGet m k1 := by
  induction m with
  | nil => simp [mapSet, mapGet]
  | cons e rest ih =>
    obtain ⟨k2, v2⟩ := e
    by_cases h : k2 = k
    · subst h
      by_cases h1 : k2 = k1 <;> simp [mapSet, mapGet, h1]
    · by_cases h1 : k2 = k1
      · subst h1
        have h2 : ¬ k = k2 := fun e => h e.symm
        simp [mapSet, mapGet, h, h2]
      · simp [mapSet, mapGet, h, h1, ih]

theorem mapGet_isSome_iff (m : ConvMap) (k : JSString) :
    (mapGet m k).isSome = true ↔ k ∈ m.map Prod.fst := by
  induction m with
  | nil => simp [mapGet]
  | cons e rest ih =>
    obtain ⟨k2, v2⟩ := e
    by_cases h : k2 = k
    · simp [mapGet, h]
    · have h2 : ¬ k = k2 := fun e => h e.symm
      simp [mapGet, h, h2, ih]

theorem mapGet_eq_none_iff (m : ConvMap) (k : JSString) :
    mapGet m k = none ↔ k ∉ m.map Prod.fst := by
  rw [← mapGet_isSome_iff]
  cases mapGet m k <;> simp

theorem keys_mapSet_of_mem (m : ConvMap) (k : JSString) (v : Summary)
    (h : k ∈ m.map Prod.fst) : (mapSet m k v).map Prod.fst = m.map Prod.fst := by
  induction m with
  | nil => simp at h
  | cons e rest ih =>
    obtain ⟨k2, v2⟩ := e
    by_cases h1 : k2 = k
    · simp [mapSet, h1]
    · have h2 : k ∈ rest.map Prod.fst := by
        simp only [List.map_cons, List.mem_cons] at h
        rcases h with h | h
        · exact absurd h.symm h1
        · exact h
      simp [mapSet, h1, ih h2]

theorem mapSet_of_not_mem (m : ConvMap) (k : JSString) (v : Summary)
    (h : k ∉ m.map Prod.fst) : mapSet m k v = m ++ [(k, v)] := by
  induction m with
  | nil => simp [mapSet]
  | cons e rest ih =>
    obtain ⟨k2, v2⟩ := e
    simp only [List.map_cons, List.mem_cons, not_or] at h
    have h1 : ¬ k2 = k := fun e => h.1 e.symm
    simp [mapSet, h1, ih h.2]

theorem mapSet_mapSet (m : ConvMap) (k : JSString) (a b : Summary) :
    mapSet (mapSet m k a) k b = mapSet m k b := by
  induction m with
  | nil => simp [mapSet]
  | cons e rest ih =>
    obtain ⟨k2, v2⟩ := e
    by_cases h1 : k2 = k <;> simp [mapSet, h1, ih]

theorem mapGet_of_mem (m : ConvMap) (h : (m.map Prod.fst).Nodup) (e : JSString × Summary)
    (he : e ∈ m) : mapGet m e.1 = some e.2 := by
  induction m with
  | nil => simp at he
  | cons e1 rest ih =>
    obtain ⟨k2, v2⟩ := e1
    simp only [List.map_cons, List.nodup_cons] at h
    rcases List.mem_cons.1 he with he | he
    · subst he; simp [mapGet]
    · have hne : ¬ k2 = e.1 := by
        intro hk
        exact h.1 (hk ▸ List.mem_map_of_mem Prod.fst he)
      simp [mapGet, hne, ih h.2 he]

theorem mem_of_mapGet (m : ConvMap) (k : JSString) (v : Summary) (h : mapGet m k = some v) :
    (k, v) ∈ m := by
  induction m with
  | nil => simp [mapGet] at h
  | cons e1 rest ih =>
    obtain ⟨k2, v2⟩ := e1
    by_cases h1 : k2 = k
    · simp [mapGet, h1] at h
      simp [h1, h]
    · simp only [mapGet, h1, if_false] at h
      exact List.mem_cons_of_mem _ (ih h)

theorem forEachStep_eq (user : JSString) (m : ConvMap) (msg : Message) :
    forEachStep user m msg =
      mapSet m msg.conversationId
        (updateSummary user msg ((mapGet m msg.conversationId).getD (newSummary user msg))) := by
  unfold forEachStep mapHas
  cases h : mapGet m msg.conversationId with
  | none => simp [h, mapGet_mapSet, mapSet_mapSet]
  | some conv => simp [h]

theorem updateSummary_conversationId (user : JSString) (x : Message) (c : Summary) :
    (updateSummary user x c).conversationId = c.conversationId := by
  unfold updateSummary; split_ifs <;> rfl

theorem updateSummary_lastMessage (user : JSString) (x : Message) (c : Summary) :
    (updateSummary user x c).lastMessage =
      if x.createdAt > c.lastMessage.createdAt then x else c.lastMessage := by
  unfold updateSummary; split_ifs <;> rfl

theorem updateSummary_unreadCount (user : JSString) (x : Message) (c : Summary) :
    (updateSummary user x c).unreadCount =
      c.unreadCount + if (!x.isRead && decide (x.receiver = user)) = true then 1 else 0 := by
  unfold updateSummary; split_ifs <;> rfl

theorem filter_unreadIn_append (k user : JSString) (p : List Message) (x : Message) :
    ((p ++ [x]).filter (unreadIn k user)).length =
      (p.filter (unreadIn k user)).length + if unreadIn k user x = true then 1 else 0 := by
  rw [List.filter_append, List.length_append]
  by_cases h : unreadIn k user x = true <;> simp [List.filter, h]

theorem scanInv_nil (user : JSString) : ScanInv user [] [] := by
  refine ⟨by simp, by simp, ?_⟩
  intro k v h
  simp [mapGet] at h

theorem scanInv_step (user : JSString) (p : List Message) (m : ConvMap) (x : Message)
    (h : ScanInv user p m) : ScanInv user (p ++ [x]) (forEachStep user m x) := by
  obtain ⟨hnd, hH, hG⟩ := h
  rw [forEachStep_eq]
  have hcur : ∀ cur, cur = (mapGet m x.conversationId).getD (newSummary user x) →
      cur.conversationId = x.conversationId ∧ (cur.lastMessage = x ∨ cur.lastMessage ∈ p) ∧
      cur.lastMessage.conversationId = x.conversationId ∧
      (∀ y ∈ p, y.conversationId = x.conversationId →
        y.createdAt ≤ cur.lastMessage.createdAt) ∧
      cur.unreadCount = (p.filter (unreadIn x.conversationId user)).length := by
    intro cur hc
    cases hg : mapGet m x.conversationId with
    | none =>
      rw [hg] at hc
      simp only [Option.getD_none] at hc
      have hno : ∀ y ∈ p, y.conversationId ≠ x.conversationId := by
        intro y hy hyc
        have := hH y hy
        rw [hyc, hg] at this
        simp at this
      subst hc
      refine ⟨rfl, Or.inl rfl, rfl, fun y hy hyc => absurd hyc (hno y hy), ?_⟩
      have : p.filter (unreadIn x.conversationId user) = [] := by
        rw [List.filter_eq_nil_iff]
        intro y hy
        simp [unreadIn, hno y hy]
      rw [this]
      rfl
    | some c =>
      rw [hg] at hc
      simp only [Option.getD_some] at hc
      subst hc
      obtain ⟨g1, g2, g3, g4, g5⟩ := hG _ _ hg
      exact ⟨g1, Or.inr g2, g3, g4, g5⟩
  obtain ⟨c1, c2, c3, c4, c5⟩ := hcur _ rfl
  refine ⟨?_, ?_, ?_⟩
  · by_cases hk : x.conversationId ∈ m.map Prod.fst
    · rw [keys_mapSet_of_mem _ _ _ hk]; exact hnd
    · rw [mapSet_of_not_mem _ _ _ hk, List.map_append, List.nodup_append]
      refine ⟨hnd, by simp, ?_⟩
      intro a ha hb
      simp only [List.map_cons, List.map_nil, List.mem_singleton] at hb
      exact hk (hb ▸ ha)
  · intro y hy
    rw [mapGet_mapSet]
    by_cases hk : x.conversationId = y.conversationId
    · simp [hk]
    · have hyp : y ∈ p := by
        rcases List.mem_append.1 hy with hy | hy
        · exact hy
        · simp only [List.mem_singleton] at hy
          exact absurd (by rw [hy]) hk
      simp [hk, hH y hyp]
  · intro k1 v hv
    rw [mapGet_mapSet] at hv
    by_cases hk : x.conversationId = k1
    · subst hk
      rw [if_pos rfl, Option.some.injEq] at hv
      subst hv
      refine ⟨by rw [updateSummary_conversationId]; exact c1, ?_, ?_, ?_, ?_⟩
      · rw [updateSummary_lastMessage]
        split_ifs
        · simp
        · rcases c2 with c2 | c2
          · rw [c2]; simp
          · exact List.mem_append_left _ c2
      · rw [updateSummary_lastMessage]
        split_ifs
        · rfl
        · exact c3
      · intro y hy hyc
        rw [updateSummary_lastMessage]
        rcases List.mem_append.1 hy with hy | hy
        · have := c4 y hy hyc
          split_ifs with hgt
          · omega
          · exact this
        · simp only [List.mem_singleton] at hy
          subst hy
          split_ifs with hgt
          · exact le_refl _
          · omega
      · rw [updateSummary_unreadCount, filter_unreadIn_append, c5]
        congr 1
        simp only [unreadIn, decide_True, Bool.true_and]
        rw [Bool.and_comm]
    · simp only [hk, if_false] at hv
      obtain ⟨g1, g2, g3, g4, g5⟩ := hG _ _ hv
      refine ⟨g1, List.mem_append_left _ g2, g3, ?_, ?_⟩
      · intro y hy hyc
        rcases List.mem_append.1 hy with hy | hy
        · exact g4 y hy hyc
        · simp only [List.mem_singleton] at hy
          subst hy
          exact absurd hyc hk
      · rw [filter_unreadIn_append, g5]
        simp [unreadIn, hk]

theorem scanInv_foldl (user : JSString) :
    ∀ (rest p : List Message) (m : ConvMap), ScanInv user p m →
      ScanInv user (p ++ rest) (rest.foldl (forEachStep user) m)
  | [], p, m, h => by simpa using h
  | x :: rest, p, m, h => by
    have := scanInv_foldl user rest (p ++ [x]) _ (scanInv_step user p m x h)
    simpa using this

theorem scanInv_scan (user : JSString) (msgs : List Message) :
    ScanInv user msgs (msgs.foldl (forEachStep user) []) := by
  simpa using scanInv_foldl user msgs [] [] (scanInv_nil user)

theorem mem_groupScan (user : JSString) (msgs : List Message) (s : Summary) :
    s ∈ groupScan user msgs ↔
      mapGet (msgs.foldl (forEachStep user) []) s.conversationId = some s := by
  obtain ⟨hnd, _, hG⟩ := scanInv_scan user msgs
  unfold groupScan mapValues
  constructor
  · intro hs
    obtain ⟨e, he, rfl⟩ := List.mem_map.1 hs
    have hg := mapGet_of_mem _ hnd e he
    rw [(hG _ _ hg).1]
    exact hg
  · intro hg
    exact List.mem_map.2 ⟨_, mem_of_mapGet _ _ _ hg, rfl⟩

theorem groupScan_facts (user : JSString) (msgs : List Message) (s : Summary)
    (hs : s ∈ groupScan user msgs) :
    s.lastMessage ∈ msgs ∧ s.lastMessage.conversationId = s.conversationId ∧
    (∀ x ∈ msgs, x.conversationId = s.conversationId →
      x.createdAt ≤ s.lastMessage.createdAt) ∧
    s.unreadCount = (msgs.filter (unreadIn s.conversationId user)).length := by
  obtain ⟨_, _, hG⟩ := scanInv_scan user msgs
  obtain ⟨_, g2, g3, g4, g5⟩ := hG _ _ ((mem_groupScan user msgs s).1 hs)
  exact ⟨g2, g3, g4, g5⟩

theorem groupScan_ids (user : JSString) (msgs : List Message) :
    (groupScan user msgs).map Summary.conversationId =
      (msgs.foldl (forEachStep user) []).map Prod.fst := by
  obtain ⟨hnd, _, hG⟩ := scanInv_scan user msgs
  unfold groupScan mapValues
  rw [List.map_map]
  apply List.map_congr_left
  intro e he
  exact (hG _ _ (mapGet_of_mem _ hnd e he)).1

theorem mem_groupScan_ids (user : JSString) (msgs : List Message) (c : JSString) :
    c ∈ (groupScan user msgs).map Summary.conversationId ↔
      ∃ x ∈ msgs, x.conversationId = c := by
  obtain ⟨_, hH, hG⟩ := scanInv_scan user msgs
  rw [groupScan_ids, ← mapGet_isSome_iff]
  constructor
  · intro h
    cases hg : mapGet (msgs.foldl (forEachStep user) []) c with
    | none => rw [hg] at h; simp at h
    | some v =>
      obtain ⟨_, g2, g3, _, _⟩ := hG _ _ hg
      exact ⟨_, g2, g3⟩
  · rintro ⟨x, hx, rfl⟩
    exact hH x hx

theorem mem_findByParticipant (store : List Message) (user : JSString) (x : Message) :
    x ∈ findByParticipant store user ↔ x ∈ store ∧ (x.sender = user ∨ x.receiver = user) := by
  unfold findByParticipant
  rw [(List.perm_insertionSort createdAtDesc _).mem_iff]
  simp [List.mem_filter]

theorem unread_findByParticipant (store : List Message) (user c : JSString) :
    ((findByParticipant store user).filter (unreadIn c user)).length =
      unreadFor store c user := by
  unfold findByParticipant unreadFor
  rw [((List.perm_insertionSort createdAtDesc _).filter _).length_eq, List.filter_filter]
  congr 1
  apply List.filter_congr
  intro x _
  by_cases h : x.receiver = user <;> simp [unreadIn, h]

/-- C6: each summary of the conversation list of `user` counts exactly the
stored messages of its conversation that are addressed to `user` and unread. -/
theorem unreadCount_correct (store : List Message) (user : JSString) :
    ∀ s ∈ getConversations store user,
      s.unreadCount = (store.filter (fun m =>
        decide (m.conversationId = s.conversationId) && decide (m.receiver = user) &&
          !m.isRead)).length := by
  intro s hs
  rw [(groupScan_facts user _ s hs).2.2.2, unread_findByParticipant]
  rfl

theorem unreadCount_correct_witness :
    demoSummary.unreadCount = (demoStore.filter (fun m =>
      decide (m.conversationId = demoSummary.conversationId) &&
        decide (m.receiver = str "U2") && !m.isRead)).length :=
  unreadCount_correct demoStore (str "U2") demoSummary (by decide)

/-- C8: the last message of each summary is a stored message of the viewer in
that conversation, at least as new as every message of the viewer in that
conversation; the grouping scan gives the newest message of each group for any
order of its input list. -/
theorem lastMessage_newest (store : List Message) (user : JSString) :
    (∀ s ∈ getConversations store user,
      s.lastMessage ∈ store ∧
      (s.lastMessage.sender = user ∨ s.lastMessage.receiver = user) ∧
      s.lastMessage.conversationId = s.conversationId ∧
      ∀ x ∈ store, (x.sender = user ∨ x.receiver = user) →
        x.conversationId = s.conversationId → x.createdAt ≤ s.lastMessage.createdAt) ∧
    (∀ (msgs : List Message), ∀ s ∈ groupScan user msgs,
      s.lastMessage ∈ msgs ∧ s.lastMessage.conversationId = s.conversationId ∧
      ∀ x ∈ msgs, x.conversationId = s.conversationId →
        x.createdAt ≤ s.lastMessage.createdAt) := by
  constructor
  · intro s hs
    obtain ⟨g1, g2, g3, _⟩ := groupScan_facts user _ s hs
    obtain ⟨m1, m2⟩ := (mem_findByParticipant store user _).1 g1
    exact ⟨m1, m2, g2, fun x hx hu hc =>
      g3 x ((mem_findByParticipant store user x).2 ⟨hx, hu⟩) hc⟩
  · intro msgs s hs
    obtain ⟨g1, g2, g3, _⟩ := groupScan_facts user msgs s hs
    exact ⟨g1, g2, g3⟩

theorem lastMessage_newest_witness :
    demoSummary.lastMessage ∈ demoStore ∧
      (demoSummary.lastMessage.sender = str "U2" ∨
        demoSummary.lastMessage.receiver = str "U2") ∧
      demoSummary.lastMessage.conversationId = demoSummary.conversationId ∧
      ∀ x ∈ demoStore, (x.sender = str "U2" ∨ x.receiver = str "U2") →
        x.conversationId = demoSummary.conversationId →
        x.createdAt ≤ demoSummary.lastMessage.createdAt :=
  (lastMessage_newest demoStore (str "U2")).1 demoSummary (by decide)

/-- C9: the conversation list of `user` has one summary per conversation: the
conversation ids of the summaries are pairwise distinct, they are exactly the
conversation ids of the stored messages that `user` sent or received, and a
user without messages gets the empty list. -/
theorem one_summary_per_conversation (store : List Message) (user : JSString) :
    ((getConversations store user).map Summary.conversationId).Nodup ∧
    (∀ c, c ∈ (getConversations store user).map Summary.conversationId ↔
      ∃ x ∈ store, (x.sender = user ∨ x.receiver = user) ∧ x.conversationId = c) ∧
    ((∀ x ∈ store, x.sender ≠ user ∧ x.receiver ≠ user) →
      getConversations store user = []) := by
  refine ⟨?_, ?_, ?_⟩
  · unfold getConversations
    rw [groupScan_ids]
    exact (scanInv_scan user _).1
  · intro c
    unfold getConversations
    rw [mem_groupScan_ids]
    constructor
    · rintro ⟨x, hx, hc⟩
      obtain ⟨m1, m2⟩ := (mem_findByParticipant store user x).1 hx
      exact ⟨x, m1, m2, hc⟩
    · rintro ⟨x, hx, hu, hc⟩
      exact ⟨x, (mem_findByParticipant store user x).2 ⟨hx, hu⟩, hc⟩
  · intro h
    have hnil : findByParticipant store user = [] := by
      apply List.eq_nil_iff_forall_not_mem.2
      intro x hx
      obtain ⟨m1, m2⟩ := (mem_findByParticipant store user x).1 hx
      rcases m2 with m2 | m2
      · exact (h x m1).1 m2
      · exact (h x m1).2 m2
    unfold getConversations
    rw [hnil]
    rfl

theorem one_summary_per_conversation_witness :
    (getConversations demoStore (str "U2")).map Summary.conversationId =
        [str "U2_U3_R8", str "U1_U2_R7"] ∧
      getConversations demoStore (str "U9") = [] :=
  ⟨by decide, (one_summary_per_conversation demoStore (str "U9")).2.2 (by decide)⟩

theorem times_mapSet_of_get (m : ConvMap) (k : JSString) (v old : Summary)
    (hg : mapGet m k = some old)
    (hv : v.lastMessage.createdAt = old.lastMessage.createdAt) :
    (mapSet m k v).map (fun e => e.2.lastMessage.createdAt) =
      m.map (fun e => e.2.lastMessage.createdAt) := by
  induction m with
  | nil => simp [mapGet] at hg
  | cons e rest ih =>
    obtain ⟨k2, v2⟩ := e
    by_cases h1 : k2 = k
    · simp only [mapGet, h1, if_true, Option.some.injEq] at hg
      simp [mapSet, h1, hv, hg]
    · simp only [mapGet, h1, if_false] at hg
      simp [mapSet, h1, ih hg]

theorem scan_sorted_step (user : JSString) (p : List Message) (m : ConvMap) (x : Message)
    (h : ScanInv user p m)
    (hs : (m.map (fun e => e.2.lastMessage.createdAt)).Pairwise (fun a b => b ≤ a))
    (hx : ∀ y ∈ p, x.createdAt ≤ y.createdAt) :
    ((forEachStep user m x).map (fun e => e.2.lastMessage.createdAt)).Pairwise
      (fun a b => b ≤ a) := by
  obtain ⟨hnd, _, hG⟩ := h
  rw [forEachStep_eq]
  cases hg : mapGet m x.conversationId with
  | some cur =>
    simp only [Option.getD_some]
    rw [times_mapSet_of_get m _ _ cur hg]
    · exact hs
    · rw [updateSummary_lastMessage]
      have := hx _ (hG _ _ hg).2.1
      rw [if_neg (by omega)]
  | none =>
    simp only [Option.getD_none]
    rw [mapSet_of_not_mem _ _ _ ((mapGet_eq_none_iff _ _).1 hg), List.map_append,
      List.pairwise_append]
    refine ⟨hs, by simp, ?_⟩
    intro a ha b hb
    simp only [List.map_cons, List.map_nil, List.mem_singleton] at hb
    obtain ⟨e, he, rfl⟩ := List.mem_map.1 ha
    have hlm := (hG _ _ (mapGet_of_mem _ hnd e he)).2.1
    rw [hb, updateSummary_lastMessage]
    have hnew : (newSummary user x).lastMessage = x := rfl
    rw [hnew, if_neg (by omega)]
    exact hx _ hlm

theorem scan_sorted_foldl (user : JSString) :
    ∀ (rest p : List Message) (m : ConvMap), ScanInv user p m →
      (m.map (fun e => e.2.lastMessage.createdAt)).Pairwise (fun a b => b ≤ a) →
      (p ++ rest).Pairwise createdAtDesc →
      ((rest.foldl (forEachStep user) m).map
        (fun e => e.2.lastMessage.createdAt)).Pairwise (fun a b => b ≤ a)
  | [], _, _, _, hs, _ => by simpa using hs
  | x :: rest, p, m, h, hs, hp => by
    have hx : ∀ y ∈ p, x.createdAt ≤ y.createdAt := by
      intro y hy
      exact (List.pairwise_append.1 hp).2.2 y hy x (List.mem_cons_self _ _)
    have hp1 : (p ++ [x] ++ rest).Pairwise createdAtDesc := by simpa using hp
    exact scan_sorted_foldl user rest (p ++ [x]) _ (scanInv_step user p m x h)
      (scan_sorted_step user p m x h hs hx) hp1

/-- C10: the conversation list is in descending order of the creation time of
the last message: each summary's last message is at least as new as that of
every summary after it. -/
theorem summaries_newest_first (store : List Message) (user : JSString) :
    (getConversations store user).Pairwise
      (fun s t => t.lastMessage.createdAt ≤ s.lastMessage.createdAt) := by
  have hsorted : (findByParticipant store user).Pairwise createdAtDesc :=
    List.sorted_insertionSort createdAtDesc _
  have := scan_sorted_foldl user (findByParticipant store user) [] []
    (scanInv_nil user) (by simp) (by simpa using hsorted)
  unfold getConversations groupScan mapValues
  rw [List.pairwise_map]
  rw [List.pairwise_map] at this
  exact this

/-! ## Unread accounting -/

theorem sendAll_eq_append :
    ∀ (reqs : List SendRequest) (store : List Message), AllSucceed store reqs →
      sendAll store reqs = store ++ reqs.map sentMessage
  | [], store, _ => by simp [sendAll]
  | q :: qs, store, h => by
    obtain ⟨⟨m, hm⟩, hrest⟩ := h
    obtain ⟨e, hs⟩ := postMessage_created q.env store q.user q.body q.now m hm
    rw [sendAll_cons, sendAll_eq_append qs _ hrest, hs, e]
    simp [sentMessage]

theorem unreadFor_append (s1 s2 : List Message) (c user : JSString) :
    unreadFor (s1 ++ s2) c user = unreadFor s1 c user + unreadFor s2 c user := by
  simp [unreadFor, List.filter_append]

theorem unreadFor_fresh (store : List Message) (c user : JSString)
    (h : ∀ x ∈ store, x.conversationId ≠ c) : unreadFor store c user = 0 := by
  unfold unreadFor
  rw [List.length_eq_zero, List.filter_eq_nil_iff]
  intro x hx
  simp [unreadIn, h x hx]

theorem sentMessage_exchange (a b r : JSString) (q : SendRequest)
    (he : ExchangeSend a b r q) (hc : ComputedId (resolve a b r) q) :
    (sentMessage q).conversationId = resolve a b r := by
  obtain ⟨hd, hr⟩ := he
  unfold ComputedId at hc
  have : resolve q.user q.body.receiverId q.body.animalId = resolve a b r := by
    rcases hd with ⟨h1, h2⟩ | ⟨h1, h2⟩
    · rw [h1, h2, hr]
    · rw [h1, h2, hr, resolve_swap]
  simp only [sentMessage, this]
  exact hc

theorem unreadFor_sent (a b r : JSString) (hab : a ≠ b) :
    ∀ (reqs : List SendRequest),
      (∀ q ∈ reqs, ExchangeSend a b r q ∧ ComputedId (resolve a b r) q) →
      unreadFor (reqs.map sentMessage) (resolve a b r) b =
          reqs.countP (fun q => decide (q.user = a)) ∧
        unreadFor (reqs.map sentMessage) (resolve a b r) a =
          reqs.countP (fun q => decide (q.user = b))
  | [], _ => by simp [unreadFor]
  | q :: qs, h => by
    obtain ⟨ih1, ih2⟩ := unreadFor_sent a b r hab qs
      (fun x hx => h x (List.mem_cons_of_mem _ hx))
    obtain ⟨he, hc⟩ := h q (List.mem_cons_self _ _)
    have hcid := sentMessage_exchange a b r q he hc
    have hrec : (sentMessage q).receiver = q.body.receiverId := rfl
    have hread : (sentMessage q).isRead = false := rfl
    have e1 : unreadFor ((q :: qs).map sentMessage) (resolve a b r) b =
        (if q.body.receiverId = b then 1 else 0) +
          unreadFor (qs.map sentMessage) (resolve a b r) b := by
      rw [List.map_cons, ← List.singleton_append, unreadFor_append]
      congr 1
      by_cases hb : q.body.receiverId = b <;>
        simp [unreadFor, List.filter, unreadIn, hcid, hrec, hread, hb]
    have e2 : unreadFor ((q :: qs).map sentMessage) (resolve a b r) a =
        (if q.body.receiverId = a then 1 else 0) +
          unreadFor (qs.map sentMessage) (resolve a b r) a := by
      rw [List.map_cons, ← List.singleton_append, unreadFor_append]
      congr 1
      by_cases hb : q.body.receiverId = a <;>
        simp [unreadFor, List.filter, unreadIn, hcid, hrec, hread, hb]
    rw [e1, e2, ih1, ih2, List.countP_cons, List.countP_cons]
    have hba : b ≠ a := fun e => hab e.symm
    rcases he.1 with ⟨h1, h2⟩ | ⟨h1, h2⟩
    · simp [h1, h2, hab, hba]; omega
    · simp [h1, h2, hab, hba]; omega

theorem getConversations_unread (store : List Message) (user : JSString) (s : Summary)
    (hs : s ∈ getConversations store user) :
    s.unreadCount = unreadFor store s.conversationId user := by
  rw [(groupScan_facts user _ s hs).2.2.2, unread_findByParticipant]

theorem getConversations_has (store : List Message) (user : JSString) (x : Message)
    (hx : x ∈ store) (hu : x.sender = user ∨ x.receiver = user) :
    ∃ s ∈ getConversations store user, s.conversationId = x.conversationId := by
  have : x.conversationId ∈ (getConversations store user).map Summary.conversationId := by
    unfold getConversations
    rw [mem_groupScan_ids]
    exact ⟨x, (mem_findByParticipant store user x).2 ⟨hx, hu⟩, rfl⟩
  obtain ⟨s, hs, e⟩ := List.mem_map.1 this
  exact ⟨s, hs, e⟩

theorem groupScan_singleton (user : JSString) (x : Message) :
    groupScan user [x] = [updateSummary user x (newSummary user x)] := by
  simp [groupScan, forEachStep_eq, mapGet, mapSet, mapValues]

/-- C7 (counterexample): (1) a store without any message between `U1` and `U2`
holds an unread message of `U3` to `U2` filed under the id `U1_U2_R7`; after
one message of `U1` to `U2` about `R7` the summary of that conversation shows
`U2` two unread messages, not one. (2) From the empty store, two messages of
`U1` to `U2` about `R7`, the first sent with the supplied id `x`, leave `U2`
with two summaries of one unread message each, none with two. -/
theorem unread_accounting_counterexample :
    ((∀ x ∈ foreignStore, ¬ Between (str "U1") (str "U2") (str "R7") x) ∧
      AllSucceed foreignStore
        [mkSend (str "U1") (str "U2") (str "R7") (str "Is this still available?") none 2] ∧
      ExchangeSend (str "U1") (str "U2") (str "R7")
        (mkSend (str "U1") (str "U2") (str "R7") (str "Is this still available?") none 2) ∧
      (getConversations (sendAll foreignStore
          [mkSend (str "U1") (str "U2") (str "R7") (str "Is this still available?") none 2])
        (str "U2")).map (fun s => (s.conversationId, s.unreadCount)) =
        [(str "U1_U2_R7", 2)]) ∧
    (AllSucceed []
        [mkSend (str "U1") (str "U2") (str "R7") (str "a") (some (str "x")) 1,
         mkSend (str "U1") (str "U2") (str "R7") (str "b") none 2] ∧
      ExchangeSend (str "U1") (str "U2") (str "R7")
        (mkSend (str "U1") (str "U2") (str "R7") (str "a") (some (str "x")) 1) ∧
      ExchangeSend (str "U1") (str "U2") (str "R7")
        (mkSend (str "U1") (str "U2") (str "R7") (str "b") none 2) ∧
      (getConversations (sendAll []
          [mkSend (str "U1") (str "U2") (str "R7") (str "a") (some (str "x")) 1,
           mkSend (str "U1") (str "U2") (str "R7") (str "b") none 2])
        (str "U2")).map (fun s => (s.conversationId, s.unreadCount)) =
        [(str "U1_U2_R7", 1), (str "x", 1)]) :=
  ⟨⟨by decide, ⟨⟨_, rfl⟩, trivial⟩, by decide, by decide⟩,
    ⟨⟨⟨_, rfl⟩, ⟨_, rfl⟩, trivial⟩, by decide, by decide, by decide⟩⟩

/-- C7 (amended): starting from a store with no message filed under the id
`c = resolve a b r` (with `a ≠ b`), after any sequence of successful sends
between `a` and `b` about `r` that leave the conversation id to the server,
`n` of them from `a` and `m` from `b`, the summary of conversation `c` shows
`b` the unread count `n` and `a` the unread count `m`, and both lists have
that summary once a message was sent; after a single message of `a` to `b`
the summary in the list of `b` has unread count 1 and the text sent as its
last message, and it is the whole list when `b` had no message before. -/
theorem unread_accounting (a b r : JSString) (store : List Message)
    (reqs : List SendRequest) (hab : a ≠ b)
    (hfresh : ∀ x ∈ store, x.conversationId ≠ resolve a b r)
    (hreq : ∀ q ∈ reqs, ExchangeSend a b r q ∧ ComputedId (resolve a b r) q)
    (hok : AllSucceed store reqs) :
    (∀ s ∈ getConversations (sendAll store reqs) b, s.conversationId = resolve a b r →
      s.unreadCount = reqs.countP (fun q => decide (q.user = a))) ∧
    (∀ s ∈ getConversations (sendAll store reqs) a, s.conversationId = resolve a b r →
      s.unreadCount = reqs.countP (fun q => decide (q.user = b))) ∧
    (reqs ≠ [] →
      (∃ s ∈ getConversations (sendAll store reqs) b, s.conversationId = resolve a b r) ∧
      (∃ s ∈ getConversations (sendAll store reqs) a, s.conversationId = resolve a b r)) ∧
    (∀ q, reqs = [q] → q.user = a →
      ∃ s ∈ getConversations (sendAll store reqs) b,
        s.conversationId = resolve a b r ∧ s.unreadCount = 1 ∧
        s.lastMessage.message = q.body.message ∧
        ((∀ x ∈ store, x.sender ≠ b ∧ x.receiver ≠ b) →
          getConversations (sendAll store reqs) b = [s])) := by
  have hS := sendAll_eq_append reqs store hok
  obtain ⟨u1, u2⟩ := unreadFor_sent a b r hab reqs hreq
  have p1 : ∀ s ∈ getConversations (sendAll store reqs) b,
      s.conversationId = resolve a b r →
      s.unreadCount = reqs.countP (fun q => decide (q.user = a)) := by
    intro s hs hc
    rw [getConversations_unread _ _ s hs, hc, hS, unreadFor_append,
      unreadFor_fresh store _ _ hfresh, u1, Nat.zero_add]
  have p2 : ∀ s ∈ getConversations (sendAll store reqs) a,
      s.conversationId = resolve a b r →
      s.unreadCount = reqs.countP (fun q => decide (q.user = b)) := by
    intro s hs hc
    rw [getConversations_unread _ _ s hs, hc, hS, unreadFor_append,
      unreadFor_fresh store _ _ hfresh, u2, Nat.zero_add]
  have p3 : reqs ≠ [] →
      (∃ s ∈ getConversations (sendAll store reqs) b, s.conversationId = resolve a b r) ∧
      (∃ s ∈ getConversations (sendAll store reqs) a, s.conversationId = resolve a b r) := by
    intro hne
    cases reqs with
    | nil => exact absurd rfl hne
    | cons q qs =>
      obtain ⟨he, hc⟩ := hreq q (List.mem_cons_self _ _)
      have hcid := sentMessage_exchange a b r q he hc
      have hmem : sentMessage q ∈ sendAll store (q :: qs) := by
        rw [hS]; simp
      have hb : (sentMessage q).sender = b ∨ (sentMessage q).receiver = b := by
        rcases he.1 with ⟨_, h2⟩ | ⟨h1, _⟩
        · exact Or.inr h2
        · exact Or.inl h1
      have ha : (sentMessage q).sender = a ∨ (sentMessage q).receiver = a := by
        rcases he.1 with ⟨h1, _⟩ | ⟨_, h2⟩
        · exact Or.inl h1
        · exact Or.inr h2
      obtain ⟨s1, hs1, e1⟩ := getConversations_has _ b _ hmem hb
      obtain ⟨s2, hs2, e2⟩ := getConversations_has _ a _ hmem ha
      exact ⟨⟨s1, hs1, e1.trans hcid⟩, ⟨s2, hs2, e2.trans hcid⟩⟩
  refine ⟨p1, p2, p3, ?_⟩
  intro q hq hqa
  subst hq
  obtain ⟨⟨s, hs, hc⟩, _⟩ := p3 (by simp)
  obtain ⟨he, hcq⟩ := hreq q (List.mem_singleton_self q)
  have hrecv : q.body.receiverId = b := by
    rcases he.1 with ⟨_, h2⟩ | ⟨h1, _⟩
    · exact h2
    · exact absurd (hqa.symm.trans h1) hab
  have hS1 : sendAll store [q] = store ++ [sentMessage q] := by simpa using hS
  have hlast : s.lastMessage = sentMessage q := by
    obtain ⟨g1, g2, _, _⟩ := groupScan_facts b _ s hs
    have hin := ((mem_findByParticipant _ b _).1 g1).1
    rw [hS1] at hin
    rcases List.mem_append.1 hin with hin | hin
    · exact absurd (g2.trans hc) (hfresh _ hin)
    · simpa using hin
  refine ⟨s, hs, hc, ?_, by rw [hlast]; rfl, ?_⟩
  · rw [p1 s hs hc]
    simp [hqa]
  · intro hnone
    have hfind : findByParticipant (sendAll store [q]) b = [sentMessage q] := by
      have hf : store.filter
          (fun m => decide (m.sender = b) || decide (m.receiver = b)) = [] := by
        rw [List.filter_eq_nil_iff]
        intro x hx
        simp [(hnone x hx).1, (hnone x hx).2]
      have hr : (sentMessage q).receiver = b := hrecv
      unfold findByParticipant
      rw [hS1, List.filter_append, hf]
      simp [List.filter, hr]
    have hs1 := hs
    unfold getConversations at hs1 ⊢
    rw [hfind, groupScan_singleton] at hs1 ⊢
    rw [List.mem_singleton] at hs1
    rw [hs1]

theorem unread_accounting_witness :
    ∃ s ∈ getConversations
        (sendAll [] [mkSend (str "U1") (str "U2") (str "R7")
          (str "Is this still available?") none 1]) (str "U2"),
      s.conversationId = resolve (str "U1") (str "U2") (str "R7") ∧ s.unreadCount = 1 ∧
      s.lastMessage.message = str "Is this still available?" ∧
      ((∀ x ∈ ([] : List Message), x.sender ≠ str "U2" ∧ x.receiver ≠ str "U2") →
        getConversations
          (sendAll [] [mkSend (str "U1") (str "U2") (str "R7")
            (str "Is this still available?") none 1]) (str "U2") = [s]) :=
  (unread_accounting (str "U1") (str "U2") (str "R7") []
    [mkSend (str "U1") (str "U2") (str "R7") (str "Is this still available?") none 1]
    (by decide) (by simp)
    (by intro q hq; rw [List.mem_singleton] at hq; subst hq; decide)
    ⟨⟨_, rfl⟩, trivial⟩).2.2.2
    (mkSend (str "U1") (str "U2") (str "R7") (str "Is this still available?") none 1)
    rfl rfl

/-! ## Fetching a conversation and marking it read -/

/-- C11: fetching conversation `c` returns a permutation of exactly the stored
messages whose conversation id is `c`, in non-decreasing order of creation
time. -/
theorem conversation_sorted_perm (store : List Message) (c viewer : JSString) :
    List.Perm (getConversation store c viewer).1
        (store.filter (fun m => decide (m.conversationId = c))) ∧
      (getConversation store c viewer).1.Pairwise
        (fun a b => a.createdAt ≤ b.createdAt) :=
  ⟨List.perm_insertionSort createdAtAsc _, List.sorted_insertionSort createdAtAsc _⟩

theorem markOne_eq (c viewer : JSString) (m : Message) :
    markOne c viewer m = { m with isRead := m.isRead || unreadIn c viewer m } := by
  rcases m with ⟨cid, sd, rc, an, body, rd, t⟩
  unfold markOne
  by_cases h : unreadIn c viewer ⟨cid, sd, rc, an, body, rd, t⟩ = true
  · simp [h]
  · simp [h]

theorem markOne_of_not_match (c viewer : JSString) (m : Message)
    (h : m.conversationId ≠ c ∨ m.receiver ≠ viewer) : markOne c viewer m = m := by
  unfold markOne
  have : unreadIn c viewer m = false := by
    rcases h with h | h <;> simp [unreadIn, h]
  simp [this]

theorem markOne_of_read (c viewer : JSString) (m : Message) (h : m.isRead = true) :
    markOne c viewer m = m := by
  unfold markOne
  have : unreadIn c viewer m = false := by simp [unreadIn, h]
  simp [this]

theorem markOne_of_match (c viewer : JSString) (m : Message)
    (h : unreadIn c viewer m = true) : markOne c viewer m = { m with isRead := true } := by
  unfold markOne
  simp [h]

theorem unreadIn_markOne (c viewer : JSString) (m : Message) :
    unreadIn c viewer (markOne c viewer m) = false := by
  by_cases h : unreadIn c viewer m = true
  · rw [markOne_of_match c viewer m h]
    simp [unreadIn]
  · unfold markOne
    simp [h]

theorem unreadIn_markOne_other (c viewer c1 other : JSString) (m : Message)
    (h : other ≠ viewer) : unreadIn c1 other (markOne c viewer m) = unreadIn c1 other m := by
  by_cases hm : unreadIn c viewer m = true
  · rw [markOne_of_match c viewer m hm]
    have hr : m.receiver = viewer := by
      simp only [unreadIn, Bool.and_eq_true, decide_eq_true_eq] at hm
      exact hm.1.2
    have hne : ¬ m.receiver = other := fun e => h (e.symm.trans hr)
    simp [unreadIn, hne]
  · unfold markOne
    simp [hm]

theorem markOne_markOne (c viewer : JSString) (m : Message) :
    markOne c viewer (markOne c viewer m) = markOne c viewer m := by
  have h := unreadIn_markOne c viewer m
  generalize markOne c viewer m = x at h ⊢
  unfold markOne
  simp [h]

theorem markOne_two (c1 v1 c2 v2 : JSString) (m : Message) :
    markOne c1 v1 (markOne c2 v2 m) =
      { m with isRead := m.isRead || unreadIn c1 v1 m || unreadIn c2 v2 m } := by
  rcases m with ⟨cid, sd, rc, an, body, rd, t⟩
  rw [markOne_eq c2 v2, markOne_eq c1 v1]
  simp only [unreadIn, Message.mk.injEq, true_and]
  generalize decide (cid = c1) = p1
  generalize decide (rc = v1) = p2
  generalize decide (cid = c2) = p3
  generalize decide (rc = v2) = p4
  cases rd <;> cases p1 <;> cases p2 <;> cases p3 <;> cases p4 <;> exact ⟨rfl, trivial⟩

theorem updateMany_store (store : List Message) (c viewer : JSString) :
    (getConversation store c viewer).2 = store.map (markOne c viewer) := rfl

/-- C12 (counterexample): the store reached by one send of `U1` to themselves
holds a message whose sender is `U1`; opening its conversation as `U1` marks
that message read, so a message sent by the viewer is changed. -/
theorem open_frame_counterexample :
    sendAll [] [mkSend (str "U1") (str "U1") (str "R7") (str "note") none 1] = [selfMessage] ∧
      selfMessage.sender = str "U1" ∧
      (getConversation [selfMessage] (str "U1_U1_R7") (str "U1")).2 =
        [{ selfMessage with isRead := true }] ∧
      selfMessage ∉ (getConversation [selfMessage] (str "U1_U1_R7") (str "U1")).2 := by
  decide

/-- C12 (amended): opening conversation `c` as `viewer` keeps the messages in
place and changes nothing but `isRead`, and that only from false to true on
messages of `c` addressed to `viewer`: every message of another conversation,
every message addressed to someone else, and so every message `viewer` sent to
another user, is left exactly as it was. -/
theorem open_frame (store : List Message) (c viewer : JSString) :
    List.Forall₂
      (fun m m1 =>
        m1 = { m with isRead := m1.isRead } ∧
        (m.conversationId ≠ c ∨ m.receiver ≠ viewer → m1 = m) ∧
        (m.sender = viewer → m.receiver ≠ m.sender → m1 = m) ∧
        (m1 ≠ m → m.isRead = false ∧ m1.isRead = true))
      store (getConversation store c viewer).2 := by
  rw [updateMany_store, List.forall₂_map_right_iff, List.forall₂_same]
  intro m _
  refine ⟨by rw [markOne_eq], markOne_of_not_match c viewer m, ?_, ?_⟩
  · intro hs hne
    exact markOne_of_not_match c viewer m (Or.inr (fun e => hne (e.trans hs.symm)))
  · intro hne
    by_cases h : unreadIn c viewer m = true
    · rw [markOne_of_match c viewer m h]
      simp only [unreadIn, Bool.and_eq_true, decide_eq_true_eq, Bool.not_eq_true'] at h
      exact ⟨h.2, rfl⟩
    · exact absurd (by unfold markOne; simp [h]) hne

theorem mem_getConversations_ids (store : List Message) (user c : JSString) :
    (∃ s ∈ getConversations store user, s.conversationId = c) ↔
      ∃ x ∈ store, (x.sender = user ∨ x.receiver = user) ∧ x.conversationId = c := by
  constructor
  · rintro ⟨s, hs, hc⟩
    have : c ∈ (groupScan user (findByParticipant store user)).map Summary.conversationId :=
      List.mem_map.2 ⟨s, hs, hc⟩
    rw [mem_groupScan_ids] at this
    obtain ⟨x, hx, hxc⟩ := this
    obtain ⟨m1, m2⟩ := (mem_findByParticipant store user x).1 hx
    exact ⟨x, m1, m2, hxc⟩
  · rintro ⟨x, hx, hu, hc⟩
    obtain ⟨s, hs, e⟩ := getConversations_has store user x hx hu
    exact ⟨s, hs, e.trans hc⟩

theorem unreadFor_marked_self (store : List Message) (c viewer : JSString) :
    unreadFor (store.map (markOne c viewer)) c viewer = 0 := by
  unfold unreadFor
  rw [List.length_eq_zero, List.filter_eq_nil_iff]
  intro x hx
  obtain ⟨m, _, rfl⟩ := List.mem_map.1 hx
  simp [unreadIn_markOne]

theorem unreadFor_marked_other (store : List Message) (c viewer c1 other : JSString)
    (h : other ≠ viewer) :
    unreadFor (store.map (markOne c viewer)) c1 other = unreadFor store c1 other := by
  unfold unreadFor
  rw [List.filter_map, List.length_map]
  congr 1
  apply List.filter_congr
  intro x _
  exact unreadIn_markOne_other c viewer c1 other x h

theorem markOne_conversationId (c viewer : JSString) (m : Message) :
    (markOne c viewer m).conversationId = m.conversationId := by
  rw [markOne_eq]

theorem markOne_sender (c viewer : JSString) (m : Message) :
    (markOne c viewer m).sender = m.sender := by
  rw [markOne_eq]

theorem markOne_receiver (c viewer : JSString) (m : Message) :
    (markOne c viewer m).receiver = m.receiver := by
  rw [markOne_eq]

theorem markOne_createdAt (c viewer : JSString) (m : Message) :
    (markOne c viewer m).createdAt = m.createdAt := by
  rw [markOne_eq]

theorem participant_marked (store : List Message) (c viewer user c1 : JSString) :
    (∃ x ∈ store.map (markOne c viewer),
        (x.sender = user ∨ x.receiver = user) ∧ x.conversationId = c1) ↔
      ∃ x ∈ store, (x.sender = user ∨ x.receiver = user) ∧ x.conversationId = c1 := by
  constructor
  · rintro ⟨x, hx, hu, hc⟩
    obtain ⟨m, hm, rfl⟩ := List.mem_map.1 hx
    rw [markOne_sender, markOne_receiver] at hu
    rw [markOne_conversationId] at hc
    exact ⟨m, hm, hu, hc⟩
  · rintro ⟨m, hm, hu, hc⟩
    refine ⟨markOne c viewer m, List.mem_map_of_mem _ hm, ?_, ?_⟩
    · rw [markOne_sender, markOne_receiver]; exact hu
    · rw [markOne_conversationId]; exact hc

/-- C13: after `viewer` opens conversation `c`, every message of `c` addressed
to `viewer` is read and the conversation list of `viewer` reports no unread
message for `c`, while any other user is reported a summary of `c` with the
same unread count as before the call. -/
theorem open_clears_unread (store : List Message) (c viewer : JSString) :
    (∀ m ∈ (getConversation store c viewer).2,
      m.conversationId = c → m.receiver = viewer → m.isRead = true) ∧
    (∀ s ∈ getConversations (getConversation store c viewer).2 viewer,
      s.conversationId = c → s.unreadCount = 0) ∧
    (∀ other, other ≠ viewer → ∀ n,
      (∃ s ∈ getConversations (getConversation store c viewer).2 other,
        s.conversationId = c ∧ s.unreadCount = n) ↔
      (∃ s ∈ getConversations store other, s.conversationId = c ∧ s.unreadCount = n)) := by
  rw [updateMany_store]
  refine ⟨?_, ?_, ?_⟩
  · intro m hm hc hr
    obtain ⟨x, _, rfl⟩ := List.mem_map.1 hm
    have h := unreadIn_markOne c viewer x
    simp only [unreadIn, hc, hr, decide_True, Bool.true_and, Bool.not_eq_false'] at h
    exact h
  · intro s hs hc
    rw [getConversations_unread _ _ s hs, hc, unreadFor_marked_self]
  · intro other hne n
    constructor
    · rintro ⟨s, hs, hc, hn⟩
      have hex := (mem_getConversations_ids _ other c).1 ⟨s, hs, hc⟩
      rw [participant_marked] at hex
      obtain ⟨t, ht, htc⟩ := (mem_getConversations_ids store other c).2 hex
      refine ⟨t, ht, htc, ?_⟩
      rw [getConversations_unread _ _ t ht, htc, ← hn, getConversations_unread _ _ s hs, hc,
        unreadFor_marked_other _ _ _ _ _ hne]
    · rintro ⟨s, hs, hc, hn⟩
      have hex := (mem_getConversations_ids store other c).1 ⟨s, hs, hc⟩
      rw [← participant_marked store c viewer] at hex
      obtain ⟨t, ht, htc⟩ := (mem_getConversations_ids _ other c).2 hex
      refine ⟨t, ht, htc, ?_⟩
      rw [getConversations_unread _ _ t ht, htc, ← hn, getConversations_unread _ _ s hs, hc,
        unreadFor_marked_other _ _ _ _ _ hne]

theorem open_clears_unread_witness :
    (∀ s ∈ getConversations (getConversation [askMessage] (str "U1_U2_R7") (str "U2")).2
        (str "U2"), s.conversationId = str "U1_U2_R7" → s.unreadCount = 0) ∧
      (getConversations [askMessage] (str "U2")).map Summary.unreadCount = [1] ∧
      (getConversations (getConversation [askMessage] (str "U1_U2_R7") (str "U2")).2
        (str "U2")).map Summary.unreadCount = [0] ∧
      (getConversations (getConversation [askMessage] (str "U1_U2_R7") (str "U2")).2
        (str "U1")).map Summary.unreadCount = [0] :=
  ⟨(open_clears_unread [askMessage] (str "U1_U2_R7") (str "U2")).2.1,
    by decide, by decide, by decide⟩

theorem mem_findByConversation (store : List Message) (c : JSString) (x : Message) :
    x ∈ findByConversation store c ↔ x ∈ store ∧ x.conversationId = c := by
  unfold findByConversation
  rw [(List.perm_insertionSort createdAtAsc _).mem_iff]
  simp [List.mem_filter]

/-- C14: opening a conversation answers with the list fetched before the
update: it is the fetch of `c` on the store as it was before the call, so a
message this call marks read is in the answer with `isRead = false`, although
the store afterwards holds it only with `isRead = true`. -/
theorem open_returns_snapshot (store : List Message) (c viewer : JSString) :
    (getConversation store c viewer).1 = findByConversation store c ∧
    ∀ m ∈ store, m.conversationId = c → m.receiver = viewer → m.isRead = false →
      m ∈ (getConversation store c viewer).1 ∧
      m ∉ (getConversation store c viewer).2 ∧
      { m with isRead := true } ∈ (getConversation store c viewer).2 ∧
      m ∉ findByConversation (getConversation store c viewer).2 c := by
  refine ⟨rfl, ?_⟩
  intro m hm hc hr hread
  have hmatch : unreadIn c viewer m = true := by simp [unreadIn, hc, hr, hread]
  have hnot : m ∉ (getConversation store c viewer).2 := by
    rw [updateMany_store]
    intro hin
    obtain ⟨x, _, hx⟩ := List.mem_map.1 hin
    have h := unreadIn_markOne c viewer x
    rw [hx, hmatch] at h
    exact absurd h (by simp)
  refine ⟨(mem_findByConversation store c m).2 ⟨hm, hc⟩, hnot, ?_, ?_⟩
  · rw [updateMany_store, ← markOne_of_match c viewer m hmatch]
    exact List.mem_map_of_mem _ hm
  · intro hin
    exact hnot ((mem_findByConversation _ c m).1 hin).1

theorem open_returns_snapshot_witness :
    askMessage ∈ (getConversation [askMessage] (str "U1_U2_R7") (str "U2")).1 ∧
      askMessage ∉ (getConversation [askMessage] (str "U1_U2_R7") (str "U2")).2 ∧
      { askMessage with isRead := true } ∈
        (getConversation [askMessage] (str "U1_U2_R7") (str "U2")).2 ∧
      askMessage ∉
        findByConversation (getConversation [askMessage] (str "U1_U2_R7") (str "U2")).2
          (str "U1_U2_R7") :=
  (open_returns_snapshot [askMessage] (str "U1_U2_R7") (str "U2")).2 askMessage
    (by decide) (by decide) (by decide) (by decide)

theorem updateMany_idem (store : List Message) (c viewer : JSString) :
    (store.map (markOne c viewer)).map (markOne c viewer) = store.map (markOne c viewer) := by
  rw [List.map_map]
  apply List.map_congr_left
  intro m _
  exact markOne_markOne c viewer m

/-- C15: a second opening of conversation `c` by `viewer`, with no send in
between, modifies no document: the store after the second call is the store
after the first, and the update of the second call counts zero modified rows. -/
theorem second_open_changes_nothing (store : List Message) (c viewer : JSString) :
    (getConversation (getConversation store c viewer).2 c viewer).2 =
        (getConversation store c viewer).2 ∧
      (updateMany (getConversation store c viewer).2 c viewer).2 = 0 := by
  refine ⟨?_, ?_⟩
  · rw [updateMany_store, updateMany_store, updateMany_idem]
  · rw [updateMany_store]
    exact unreadFor_marked_self store c viewer

theorem findByConversation_marked (store : List Message) (c viewer c1 : JSString) :
    findByConversation (store.map (markOne c viewer)) c1 =
      (findByConversation store c1).map (markOne c viewer) := by
  unfold findByConversation
  rw [List.map_insertionSort createdAtAsc createdAtAsc, List.filter_map]
  · congr 2
    apply List.filter_congr
    intro x _
    simp [markOne_conversationId]
  · intro a _ b _
    unfold createdAtAsc
    rw [markOne_createdAt, markOne_createdAt]

theorem markOne_in_conversation (c viewer : JSString) (m : Message)
    (h : m.conversationId = c) :
    markOne c viewer m = { m with isRead := m.isRead || decide (m.receiver = viewer) } := by
  rcases m with ⟨cid, sd, rc, an, body, rd, t⟩
  rw [markOne_eq]
  simp only [unreadIn, Message.mk.injEq, true_and]
  simp only at h
  subst h
  cases rd <;> simp

/-- C16 (counterexample): `U2` opens the conversation that holds one unread
message of `U1` to `U2` twice in a row; the first answer carries the message
with `isRead = false`, the second with `isRead = true`, so the two answers
differ. -/
theorem reopen_counterexample :
    sendAll [] [mkSend (str "U1") (str "U2") (str "R7")
        (str "Is this still available?") none 1] = [askMessage] ∧
      (getConversation [askMessage] (str "U1_U2_R7") (str "U2")).1 = [askMessage] ∧
      (getConversation (getConversation [askMessage] (str "U1_U2_R7") (str "U2")).2
        (str "U1_U2_R7") (str "U2")).1 = [{ askMessage with isRead := true }] ∧
      (getConversation (getConversation [askMessage] (str "U1_U2_R7") (str "U2")).2
        (str "U1_U2_R7") (str "U2")).1 ≠
        (getConversation [askMessage] (str "U1_U2_R7") (str "U2")).1 := by
  decide

/-- C16 (amended): the second of two successive openings of conversation `c`
by `viewer` answers with the messages of the first answer, in the same order
and with the same field values except that `isRead` is true on every message
addressed to `viewer`; the two answers are equal when no message of `c`
addressed to `viewer` was unread before the first call, and a third opening
answers exactly as the second. -/
theorem reopen_same_up_to_isRead (store : List Message) (c viewer : JSString) :
    (getConversation (getConversation store c viewer).2 c viewer).1 =
        (getConversation store c viewer).1.map
          (fun m => { m with isRead := m.isRead || decide (m.receiver = viewer) }) ∧
    ((∀ m ∈ store, m.conversationId = c → m.receiver = viewer → m.isRead = true) →
      (getConversation (getConversation store c viewer).2 c viewer).1 =
        (getConversation store c viewer).1) ∧
    (getConversation
        (getConversation (getConversation store c viewer).2 c viewer).2 c viewer).1 =
      (getConversation (getConversation store c viewer).2 c viewer).1 := by
  have hmap : (getConversation (getConversation store c viewer).2 c viewer).1 =
      (findByConversation store c).map (markOne c viewer) := by
    show findByConversation (getConversation store c viewer).2 c = _
    rw [updateMany_store, findByConversation_marked]
  refine ⟨?_, ?_, ?_⟩
  · rw [hmap]
    show _ = (findByConversation store c).map _
    apply List.map_congr_left
    intro m hm
    exact markOne_in_conversation c viewer m ((mem_findByConversation store c m).1 hm).2
  · intro hall
    rw [hmap]
    show _ = findByConversation store c
    conv_rhs => rw [← List.map_id (findByConversation store c)]
    apply List.map_congr_left
    intro m hm
    obtain ⟨h1, h2⟩ := (mem_findByConversation store c m).1 hm
    by_cases hr : m.receiver = viewer
    · exact markOne_of_read c viewer m (hall m h1 h2 hr)
    · exact markOne_of_not_match c viewer m (Or.inr hr)
  · show findByConversation
        (getConversation (getConversation store c viewer).2 c viewer).2 c =
      findByConversation (getConversation store c viewer).2 c
    rw [updateMany_store, updateMany_store, updateMany_idem]

theorem reopen_same_up_to_isRead_witness :
    (getConversation
        (getConversation [{ askMessage with isRead := true }] (str "U1_U2_R7") (str "U2")).2
        (str "U1_U2_R7") (str "U2")).1 =
      (getConversation [{ askMessage with isRead := true }] (str "U1_U2_R7") (str "U2")).1 :=
  (reopen_same_up_to_isRead [{ askMessage with isRead := true }] (str "U1_U2_R7")
    (str "U2")).2.1 (by decide)

/-- C17: the mark-read update commutes with itself for any two (conversation,
viewer) pairs, applying it twice is applying it once, and after two updates a
message is read exactly when it was read before or was matched by one of the
two filters. -/
theorem updateMany_comm_idem (store : List Message) (c1 v1 c2 v2 : JSString) :
    (updateMany (updateMany store c2 v2).1 c1 v1).1 =
        (updateMany (updateMany store c1 v1).1 c2 v2).1 ∧
    (updateMany (updateMany store c1 v1).1 c1 v1).1 = (updateMany store c1 v1).1 ∧
    (updateMany (updateMany store c2 v2).1 c1 v1).1 =
      store.map (fun m =>
        { m with isRead := m.isRead || unreadIn c1 v1 m || unreadIn c2 v2 m }) := by
  have h12 : (updateMany (updateMany store c2 v2).1 c1 v1).1 =
      store.map (fun m =>
        { m with isRead := m.isRead || unreadIn c1 v1 m || unreadIn c2 v2 m }) := by
    show (store.map (markOne c2 v2)).map (markOne c1 v1) = _
    rw [List.map_map]
    apply List.map_congr_left
    intro m _
    exact markOne_two c1 v1 c2 v2 m
  have h21 : (updateMany (updateMany store c1 v1).1 c2 v2).1 =
      store.map (fun m =>
        { m with isRead := m.isRead || unreadIn c1 v1 m || unreadIn c2 v2 m }) := by
    show (store.map (markOne c1 v1)).map (markOne c2 v2) = _
    rw [List.map_map]
    apply List.map_congr_left
    intro m _
    show markOne c2 v2 (markOne c1 v1 m) = _
    rw [markOne_two c2 v2 c1 v1 m]
    rcases m with ⟨cid, sd, rc, an, body, rd, t⟩
    simp only [Message.mk.injEq, true_and]
    generalize unreadIn c1 v1 _ = p
    generalize unreadIn c2 v2 _ = q
    cases rd <;> cases p <;> cases q <;> exact ⟨rfl, trivial⟩
  exact ⟨h12.trans h21.symm, updateMany_idem store c1 v1, h12⟩

/-! ## Rejected requests -/

theorem postMessage_doc (env : Collaborators) (store : List Message) (user : JSString)
    (body : SendBody) (now : Nat) (hdoc : env.findById body.animalId = FindResult.doc) :
    postMessage env store user body now =
      if env.validate (sentMessage ⟨env, user, body, now⟩) = true then
        (SendReply.created (sentMessage ⟨env, user, body, now⟩),
          store ++ [sentMessage ⟨env, user, body, now⟩])
      else (SendReply.serverError, store) := by
  unfold postMessage create sentMessage
  simp only [hdoc]
  split_ifs <;> rfl

/-- C18 (counterexample): with the listing `R7` in place, the send of `U1` to
`U1` is answered 201 and persists a message whose sender is its receiver. -/
theorem self_send_counterexample :
    postMessage (envListings [str "R7"]) [] (str "U1")
        { receiverId := str "U1", animalId := str "R7", message := str "note",
          conversationId := none } 1 =
      (SendReply.created selfMessage, [selfMessage]) ∧
      selfMessage.sender = selfMessage.receiver := by
  decide

/-- C18 (amended): the send handler has no check of the receiver against the
sender: a send whose receiver is the authenticated sender, for an existing
listing and a document the message model accepts, is answered 201 and appends
one message whose sender and receiver are both that user. -/
theorem self_send_accepted (env : Collaborators) (store : List Message) (user : JSString)
    (body : SendBody) (now : Nat) (hself : body.receiverId = user)
    (hdoc : env.findById body.animalId = FindResult.doc)
    (hval : env.validate (sentMessage ⟨env, user, body, now⟩) = true) :
    ∃ m, postMessage env store user body now = (SendReply.created m, store ++ [m]) ∧
      m.sender = user ∧ m.receiver = user := by
  rw [postMessage_doc env store user body now hdoc, if_pos hval]
  exact ⟨_, rfl, rfl, hself⟩

theorem self_send_accepted_witness :
    ∃ m, postMessage (envListings [str "R7"]) [] (str "U1")
        { receiverId := str "U1", animalId := str "R7", message := str "note",
          conversationId := none } 1 = (SendReply.created m, [] ++ [m]) ∧
      m.sender = str "U1" ∧ m.receiver = str "U1" :=
  self_send_accepted (envListings [str "R7"]) [] (str "U1")
    { receiverId := str "U1", animalId := str "R7", message := str "note",
      conversationId := none } 1 rfl (by decide) (by decide)

/-- C19 (counterexample): `R9` is not written as an `ObjectId` and so
references no listing; the lookup throws, and both the send request and the
resolve-conversation request for it are answered 500, not 404 (the store is
left as it was). -/
theorem missing_listing_counterexample :
    (envObjectIds [goatId]).findById (str "R9") ≠ FindResult.doc ∧
      postMessage (envObjectIds [goatId]) [askMessage] (str "U1")
          { receiverId := str "U2", animalId := str "R9", message := str "hi",
            conversationId := none } 2 = (SendReply.serverError, [askMessage]) ∧
      conversationRequest (envObjectIds [goatId]) [askMessage] (str "U1") (str "U2")
          (str "R9") = (ConversationReply.serverError, [askMessage]) := by
  decide

/-- C19 (amended): a send request and a resolve-conversation request whose
animal id references no existing listing fail and leave the message collection
as it was: with 404 when the lookup yields `null`, with 500 when the lookup
throws; a resolve request for an existing listing is answered with the
conversation id and leaves the collection as it was. -/
theorem missing_listing_reply (env : Collaborators) (store : List Message)
    (user : JSString) (body : SendBody) (now : Nat) (receiverId animalId : JSString) :
    (env.findById body.animalId = FindResult.null →
      postMessage env store user body now = (SendReply.notFound, store)) ∧
    (env.findById body.animalId = FindResult.throws →
      postMessage env store user body now = (SendReply.serverError, store)) ∧
    (env.findById body.animalId ≠ FindResult.doc →
      (postMessage env store user body now).2 = store ∧
      ∀ m, (postMessage env store user body now).1 ≠ SendReply.created m) ∧
    (env.findById animalId = FindResult.null →
      conversationRequest env store user receiverId animalId =
        (ConversationReply.notFound, store)) ∧
    (env.findById animalId = FindResult.throws →
      conversationRequest env store user receiverId animalId =
        (ConversationReply.serverError, store)) ∧
    (env.findById animalId = FindResult.doc →
      conversationRequest env store user receiverId animalId =
        (ConversationReply.ok (resolve user receiverId animalId), store)) := by
  refine ⟨?_, ?_, ?_, ?_, ?_, ?_⟩
  · intro h
    unfold postMessage
    simp only [h]
  · intro h
    unfold postMessage
    simp only [h]
  · intro h
    cases hf : env.findById body.animalId with
    | doc => exact absurd hf h
    | null =>
      unfold postMessage
      simp [hf]
    | throws =>
      unfold postMessage
      simp [hf]
  · intro h
    unfold conversationRequest postConversation
    simp only [h]
  · intro h
    unfold conversationRequest postConversation
    simp only [h]
  · intro h
    unfold conversationRequest postConversation
    simp only [h]

theorem missing_listing_reply_witness :
    postMessage (envObjectIds [goatId]) [askMessage] (str "U1")
        { receiverId := str "U2", animalId := absentId, message := str "hi",
          conversationId := none } 2 = (SendReply.notFound, [askMessage]) ∧
      conversationRequest (envObjectIds [goatId]) [askMessage] (str "U1") (str "U2")
        absentId = (ConversationReply.notFound, [askMessage]) ∧
      conversationRequest (envObjectIds [goatId]) [askMessage] (str "U1") (str "U2")
        goatId = (ConversationReply.ok (resolve (str "U1") (str "U2") goatId), [askMessage]) :=
  ⟨(missing_listing_reply (envObjectIds [goatId]) [askMessage] (str "U1")
      { receiverId := str "U2", animalId := absentId, message := str "hi",
        conversationId := none } 2 (str "U2") absentId).1 (by decide),
    (missing_listing_reply (envObjectIds [goatId]) [askMessage] (str "U1")
      { receiverId := str "U2", animalId := absentId, message := str "hi",
        conversationId := none } 2 (str "U2") absentId).2.2.2.1 (by decide),
    (missing_listing_reply (envObjectIds [goatId]) [askMessage] (str "U1")
      { receiverId := str "U2", animalId := absentId, message := str "hi",
        conversationId := none } 2 (str "U2") goatId).2.2.2.2.2 (by decide)⟩

theorem postMessage_empty_body (env : Collaborators) (store : List Message)
    (user : JSString) (body : SendBody) (now : Nat)
    (hv : env.validate = schemaValidate) (hb : body.message = []) :
    (∀ m, (postMessage env store user body now).1 ≠ SendReply.created m) ∧
      (postMessage env store user body now).2 = store ∧
      (env.findById body.animalId = FindResult.doc →
        (postMessage env store user body now).1 = SendReply.serverError) := by
  cases hf : env.findById body.animalId with
  | doc =>
    rw [postMessage_doc env store user body now hf, hv]
    simp [schemaValidate, sentMessage, hb]
  | null =>
    unfold postMessage
    simp [hf]
  | throws =>
    unfold postMessage
    simp [hf]

theorem sendAll_nonempty_body :
    ∀ (reqs : List SendRequest) (store : List Message), (∀ m ∈ store, m.message ≠ []) →
      (∀ q ∈ reqs, q.env.validate = schemaValidate) →
      ∀ m ∈ sendAll store reqs, m.message ≠ []
  | [], store, hs, _ => by simpa [sendAll] using hs
  | q :: qs, store, hs, hq => by
    rw [sendAll_cons]
    apply sendAll_nonempty_body qs _ _ (fun x hx => hq x (List.mem_cons_of_mem _ hx))
    rcases postMessage_store q.env store q.user q.body q.now with h | ⟨m, hm, h⟩
    · rw [h]; exact hs
    · rw [h]
      intro x hx
      rcases List.mem_append.1 hx with hx | hx
      · exact hs x hx
      · have hx1 : x = m := by simpa using hx
        obtain ⟨e, _⟩ := postMessage_created q.env store q.user q.body q.now m hm
        intro hempty
        have hbody : q.body.message = [] := by
          rw [hx1, e] at hempty
          exact hempty
        exact (postMessage_empty_body q.env store q.user q.body q.now
          (hq q (List.mem_cons_self _ _)) hbody).1 m hm

/-- C20: under the message model's validation, a send request with an empty
body is never answered 201 and leaves the collection as it was (for an
existing listing the answer is the handler's reply to the thrown validation
error), so every message of a store reached from the empty store by send
requests has a non-empty body. -/
theorem empty_body_rejected (env : Collaborators) (store : List Message) (user : JSString)
    (body : SendBody) (now : Nat) (reqs : List SendRequest) :
    (env.validate = schemaValidate → body.message = [] →
      (∀ m, (postMessage env store user body now).1 ≠ SendReply.created m) ∧
      (postMessage env store user body now).2 = store ∧
      (env.findById body.animalId = FindResult.doc →
        (postMessage env store user body now).1 = SendReply.serverError)) ∧
    ((∀ q ∈ reqs, q.env.validate = schemaValidate) →
      ∀ m ∈ sendAll [] reqs, m.message ≠ []) :=
  ⟨postMessage_empty_body env store user body now,
    sendAll_nonempty_body reqs [] (by simp)⟩

theorem empty_body_rejected_witness :
    (postMessage (envListings [str "R7"]) [askMessage] (str "U2")
        { receiverId := str "U1", animalId := str "R7", message := [],
          conversationId := none } 2).2 = [askMessage] ∧
      (postMessage (envListings [str "R7"]) [askMessage] (str "U2")
        { receiverId := str "U1", animalId := str "R7", message := [],
          conversationId := none } 2).1 = SendReply.serverError :=
  ⟨((empty_body_rejected (envListings [str "R7"]) [askMessage] (str "U2")
      { receiverId := str "U1", animalId := str "R7", message := [],
        conversationId := none } 2 []).1 rfl rfl).2.1,
    ((empty_body_rejected (envListings [str "R7"]) [askMessage] (str "U2")
      { receiverId := str "U1", animalId := str "R7", message := [],
        conversationId := none } 2 []).1 rfl rfl).2.2 (by decide)⟩

/-! ## The message log -/

theorem sameButRead_refl (store : List Message) : List.Forall₂ SameButRead store store := by
  rw [List.forall₂_same]
  intro m _
  rfl

theorem sameButRead_marked (store : List Message) (c viewer : JSString) :
    List.Forall₂ SameButRead store (store.map (markOne c viewer)) := by
  rw [List.forall₂_map_right_iff, List.forall₂_same]
  intro m _
  unfold SameButRead
  rw [markOne_eq]

/-- C21: every request to the messaging routes keeps the stored messages in
place and in order and leaves all their fields but `isRead` as they were; a
successful send adds exactly one message at the end, every other request
(including a send that fails) adds none. -/
theorem log_append_only (store : List Message) (r : Request) :
    List.Forall₂ SameButRead store ((serve store r).take store.length) ∧
    (∀ q, r = Request.send q → Succeeds store q →
      ∃ m, serve store r = store ++ [m]) ∧
    (∀ q, r = Request.send q → ¬ Succeeds store q → serve store r = store) ∧
    ((∀ q, r ≠ Request.send q) → (serve store r).length = store.length) := by
  cases r with
  | resolve env user receiverId animalId =>
    refine ⟨?_, fun q h => (by cases h), fun q h => (by cases h), fun _ => rfl⟩
    show List.Forall₂ SameButRead store (store.take store.length)
    rw [List.take_length]
    exact sameButRead_refl store
  | list user =>
    refine ⟨?_, fun q h => (by cases h), fun q h => (by cases h), fun _ => rfl⟩
    show List.Forall₂ SameButRead store (store.take store.length)
    rw [List.take_length]
    exact sameButRead_refl store
  | fetch c viewer =>
    refine ⟨?_, fun q h => (by cases h), fun q h => (by cases h), fun _ => ?_⟩
    · show List.Forall₂ SameButRead store ((store.map (markOne c viewer)).take store.length)
      rw [List.take_of_length_le (by simp)]
      exact sameButRead_marked store c viewer
    · show (store.map (markOne c viewer)).length = store.length
      simp
  | send q =>
    have hcases := postMessage_store q.env store q.user q.body q.now
    refine ⟨?_, ?_, ?_, fun h => absurd rfl (h q)⟩
    · show List.Forall₂ SameButRead store
        ((postMessage q.env store q.user q.body q.now).2.take store.length)
      rcases hcases with h | ⟨m, _, h⟩
      · rw [h, List.take_length]
        exact sameButRead_refl store
      · rw [h, List.take_left]
        exact sameButRead_refl store
    · intro q1 hq hs
      cases hq
      obtain ⟨m, hm⟩ := hs
      exact ⟨m, (postMessage_created q.env store q.user q.body q.now m hm).2⟩
    · intro q1 hq hs
      cases hq
      rcases hcases with h | ⟨m, hm, _⟩
      · exact h
      · exact absurd ⟨m, hm⟩ hs

/-! ## Polling and interleaving -/

theorem fetchMessages_routed (route : JSString → Routed) (c c1 : JSString)
    (store : List Message) (user : JSString) (hc : c ≠ [])
    (hr : route c = Routed.param c1) :
    fetchMessages route (some c) store user =
      (some (getConversation store c1 user).1, store.map (markOne c1 user)) := by
  cases c with
  | nil => exact absurd rfl hc
  | cons x xs =>
    unfold fetchMessages
    simp only [truthy, if_true, hr]
    rfl

theorem fetchMessages_notRouted (route : JSString → Routed) (c : JSString)
    (store : List Message) (user : JSString) (hr : route c = Routed.notRouted) :
    fetchMessages route (some c) store user = (none, store) := by
  unfold fetchMessages
  split_ifs
  · simp only [hr]
  · rfl

theorem fetchMessages_falsy (route : JSString → Routed) (sel : Option JSString)
    (store : List Message) (user : JSString)
    (h : truthy sel = false) : fetchMessages route sel store user = (none, store) := by
  unfold fetchMessages
  simp [h]

theorem map_markOne_of_none (store : List Message) (c user : JSString)
    (h : ∀ m ∈ store, unreadIn c user m = false) : store.map (markOne c user) = store := by
  conv_rhs => rw [← List.map_id store]
  apply List.map_congr_left
  intro m hm
  unfold markOne
  simp [h m hm]

theorem fetchMessages_cases (route : JSString → Routed) (sel : Option JSString)
    (store : List Message) (user : JSString) :
    (fetchMessages route sel store user).2 = store ∨
      ∃ c1, (fetchMessages route sel store user).2 = store.map (markOne c1 user) ∧
        ∀ s1, (fetchMessages route sel s1 user).2 = s1.map (markOne c1 user) := by
  by_cases ht : truthy sel = true
  · cases sel with
    | none => simp [truthy] at ht
    | some c =>
      cases c with
      | nil => simp [truthy] at ht
      | cons x xs =>
        cases hr : route (x :: xs) with
        | param c1 =>
          right
          refine ⟨c1, ?_, fun s1 => ?_⟩
          · rw [fetchMessages_routed route _ c1 store user (by simp) hr]
          · rw [fetchMessages_routed route _ c1 s1 user (by simp) hr]
        | notRouted =>
          left
          rw [fetchMessages_notRouted route _ store user hr]
  · left
    rw [fetchMessages_falsy route sel store user (by simpa using ht)]

/-- C22 (counterexample): `U2` selects the conversation (the fetch marks the
first message read), `U1` then sends a second message, and the next polling
tick of `U2` marks that second message read: a tick changes an `isRead` flag. -/
theorem poll_marks_read_counterexample :
    wordRoute (str "U1_U2_R7") = Routed.param (str "U1_U2_R7") ∧
      (fetchMessages wordRoute (some (str "U1_U2_R7")) [askMessage] (str "U2")).2 =
        [{ askMessage with isRead := true }] ∧
      sendAll [{ askMessage with isRead := true }] [followUp] =
        [{ askMessage with isRead := true }, sentMessage followUp] ∧
      (sentMessage followUp).isRead = false ∧
      (pollTick wordRoute (some (str "U1_U2_R7"))
          [{ askMessage with isRead := true }, sentMessage followUp] (str "U2")).2 =
        [{ askMessage with isRead := true }, { sentMessage followUp with isRead := true }] := by
  decide

/-- C22 (amended): a polling tick issues the same request as the fetch on
selection, whose handler fetches and marks read. When the request reaches the
route with conversation id `c1`, the tick marks read every unread message of
`c1` addressed to the viewer that is in the store at that time; it leaves
every `isRead` flag as it was when there is no such message, when the request
reaches no route, when no conversation is selected, and right after another
fetch with nothing sent in between. -/
theorem poll_tick_marks (route : JSString → Routed) (sel : Option JSString)
    (store : List Message) (user : JSString) :
    pollTick route sel store user = fetchMessages route sel store user ∧
    (∀ c c1, sel = some c → c ≠ [] → route c = Routed.param c1 →
      pollTick route sel store user =
        (some (findByConversation store c1), store.map (markOne c1 user))) ∧
    (∀ c c1, sel = some c → route c = Routed.param c1 →
      (∀ m ∈ store, unreadIn c1 user m = false) →
      (pollTick route sel store user).2 = store) ∧
    (∀ c, sel = some c → route c = Routed.notRouted →
      pollTick route sel store user = (none, store)) ∧
    (truthy sel = false → pollTick route sel store user = (none, store)) ∧
    (pollTick route sel (fetchMessages route sel store user).2 user).2 =
      (fetchMessages route sel store user).2 := by
  refine ⟨rfl, ?_, ?_, ?_, ?_, ?_⟩
  · intro c c1 hs hc hr
    subst hs
    exact fetchMessages_routed route c c1 store user hc hr
  · intro c c1 hs hr hnone
    subst hs
    show (fetchMessages route (some c) store user).2 = store
    cases c with
    | nil => rfl
    | cons x xs =>
      rw [fetchMessages_routed route _ c1 store user (by simp) hr]
      exact map_markOne_of_none store c1 user hnone
  · intro c hs hr
    subst hs
    exact fetchMessages_notRouted route c store user hr
  · intro hf
    exact fetchMessages_falsy route sel store user hf
  · show (fetchMessages route sel (fetchMessages route sel store user).2 user).2 = _
    rcases fetchMessages_cases route sel store user with h | ⟨c1, h, hall⟩
    · rw [h]
      exact h
    · rw [hall, h]
      exact updateMany_idem store c1 user

theorem poll_tick_marks_witness :
    pollTick wordRoute (some (str "U1_U2_R7")) [askMessage] (str "U2") =
        (some (findByConversation [askMessage] (str "U1_U2_R7")),
          [askMessage].map (markOne (str "U1_U2_R7") (str "U2"))) ∧
      pollTick wordRoute (some (str "a?b")) [askMessage] (str "U2") =
        (some (findByConversation [askMessage] (str "a")),
          [askMessage].map (markOne (str "a") (str "U2"))) :=
  ⟨(poll_tick_marks wordRoute (some (str "U1_U2_R7")) [askMessage] (str "U2")).2.1
      (str "U1_U2_R7") (str "U1_U2_R7") rfl (by decide) (by decide),
    (poll_tick_marks wordRoute (some (str "a?b")) [askMessage] (str "U2")).2.1
      (str "a?b") (str "a") rfl (by decide) (by decide)⟩

/-- C24 (counterexample): `U2` fetches the empty conversation, `U1` then sends
a message to `U2`, and the update of `U2` runs last: the answer to `U2` is
empty, and the new message is stored with `isRead = true`. -/
theorem interleaved_send_counterexample :
    (postMessage envAll [] (str "U1")
        { receiverId := str "U2", animalId := str "R7",
          message := str "Is this still available?", conversationId := none } 1).1 =
        SendReply.created askMessage ∧
      askMessage.isRead = false ∧
      openWithSendBetween [] (str "U1_U2_R7") (str "U2")
          (mkSend (str "U1") (str "U2") (str "R7") (str "Is this still available?") none 1) =
        ([], [{ askMessage with isRead := true }]) := by
  decide

/-- C24 (amended): when a message for the viewer is appended to conversation
`c` after the viewer's fetch and before the viewer's bulk update, the answer is
the fetch of the store as it was before the append, and the update marks the
new message read along with the others: it is stored last with
`isRead = true`. -/
theorem interleaved_send_marked (store : List Message) (c viewer : JSString)
    (q : SendRequest) (m : Message)
    (hs : (postMessage q.env store q.user q.body q.now).1 = SendReply.created m)
    (hc : m.conversationId = c) (hr : m.receiver = viewer) :
    (openWithSendBetween store c viewer q).1 = findByConversation store c ∧
      (openWithSendBetween store c viewer q).2 =
        store.map (markOne c viewer) ++ [{ m with isRead := true }] := by
  obtain ⟨e, hstore⟩ := postMessage_created q.env store q.user q.body q.now m hs
  have hread : m.isRead = false := by rw [e]
  have hmatch : unreadIn c viewer m = true := by simp [unreadIn, hc, hr, hread]
  refine ⟨rfl, ?_⟩
  show ((postMessage q.env store q.user q.body q.now).2).map (markOne c viewer) = _
  rw [hstore, List.map_append, List.map_singleton, markOne_of_match c viewer m hmatch]

theorem interleaved_send_marked_witness :
    (openWithSendBetween [] (str "U1_U2_R7") (str "U2")
        (mkSend (str "U1") (str "U2") (str "R7") (str "Is this still available?") none 1)).2 =
      ([] : List Message).map (markOne (str "U1_U2_R7") (str "U2")) ++
        [{ askMessage with isRead := true }] :=
  (interleaved_send_marked [] (str "U1_U2_R7") (str "U2")
    (mkSend (str "U1") (str "U2") (str "R7") (str "Is this still available?") none 1)
    askMessage (by decide) (by decide) (by decide)).2

/-! ## Fetching without checks -/

/-- C26 (counterexample): fetching a conversation id under which no message is
stored is answered with status 200 and the empty list. -/
theorem fetch_unknown_counterexample :
    getConversationReply [askMessage] (str "nope") (str "U1") = FetchReply.ok [] ∧
      (getConversation [askMessage] (str "nope") (str "U1")).2 = [askMessage] := by
  decide

/-- C26 (amended): fetching a conversation id under which no message is stored
succeeds with the empty list and leaves the store as it was. -/
theorem fetch_unknown_empty (store : List Message) (c viewer : JSString)
    (h : ∀ m ∈ store, m.conversationId ≠ c) :
    getConversationReply store c viewer = FetchReply.ok [] ∧
      (getConversation store c viewer).2 = store := by
  constructor
  · unfold getConversationReply
    have : (getConversation store c viewer).1 = [] := by
      apply List.eq_nil_iff_forall_not_mem.2
      intro x hx
      obtain ⟨h1, h2⟩ := (mem_findByConversation store c x).1 hx
      exact h x h1 h2
    rw [this]
  · rw [updateMany_store]
    apply map_markOne_of_none
    intro m hm
    simp [unreadIn, h m hm]

theorem fetch_unknown_empty_witness :
    getConversationReply [askMessage] (str "nope") (str "U1") = FetchReply.ok [] ∧
      (getConversation [askMessage] (str "nope") (str "U1")).2 = [askMessage] :=
  fetch_unknown_empty [askMessage] (str "nope") (str "U1") (by decide)

/-- C28: the answer of the fetch handler does not depend on the viewer: any two
viewers get the same sequence for conversation `c`, and it holds every stored
message of `c`, whether or not the viewer is its sender or receiver. -/
theorem fetch_ignores_viewer (store : List Message) (c v1 v2 : JSString) :
    getConversationReply store c v1 = getConversationReply store c v2 ∧
      (getConversation store c v1).1 = (getConversation store c v2).1 ∧
      ∀ m ∈ store, m.conversationId = c → m ∈ (getConversation store c v1).1 :=
  ⟨rfl, rfl, fun m hm hc => (mem_findByConversation store c m).2 ⟨hm, hc⟩⟩

/-- C29: a successful send whose conversation id field is absent or empty
stores the message under the id the resolve-conversation request answers for
the same user, receiver and animal; a supplied non-empty id is stored as it
is. -/
theorem id_copies_agree (env : Collaborators) (store : List Message) (user : JSString)
    (body : SendBody) (now : Nat) (m : Message)
    (h : (postMessage env store user body now).1 = SendReply.created m) :
    (truthy body.conversationId = false →
      postConversation env user body.receiverId body.animalId =
        ConversationReply.ok m.conversationId) ∧
    (∀ c, body.conversationId = some c → c ≠ [] → m.conversationId = c) := by
  obtain ⟨e, _⟩ := postMessage_created env store user body now m h
  have hdoc : env.findById body.animalId = FindResult.doc := by
    cases hf : env.findById body.animalId with
    | doc => rfl
    | null => unfold postMessage at h; simp [hf] at h
    | throws => unfold postMessage at h; simp [hf] at h
  constructor
  · intro hfalsy
    unfold postConversation
    simp only [hdoc]
    rw [e]
    cases hb : body.conversationId with
    | none => rfl
    | some c =>
      cases c with
      | nil => rfl
      | cons x xs => rw [hb] at hfalsy; simp [truthy] at hfalsy
  · intro c hb hne
    rw [e, hb]
    cases c with
    | nil => exact absurd rfl hne
    | cons x xs => rfl

theorem id_copies_agree_witness :
    postConversation (envListings [str "R7"]) (str "U1") (str "U2") (str "R7") =
      ConversationReply.ok askMessage.conversationId :=
  (id_copies_agree (envListings [str "R7"]) [] (str "U1")
    { receiverId := str "U2", animalId := str "R7",
      message := str "Is this still available?", conversationId := some [] } 1
    askMessage (by decide)).1 (by decide)

/-! ## The other party of a conversation -/

theorem updateSummary_otherUser (user : JSString) (x : Message) (c : Summary) :
    (updateSummary user x c).otherUser = c.otherUser := by
  unfold updateSummary; split_ifs <;> rfl

theorem updateSummary_animal (user : JSString) (x : Message) (c : Summary) :
    (updateSummary user x c).animal = c.animal := by
  unfold updateSummary; split_ifs <;> rfl

theorem scanOrigin_step (user : JSString) (p : List Message) (m : ConvMap) (x : Message)
    (h : ScanOrigin user p m) : ScanOrigin user (p ++ [x]) (forEachStep user m x) := by
  intro k v hv
  rw [forEachStep_eq, mapGet_mapSet] at hv
  by_cases hk : x.conversationId = k
  · rw [if_pos hk, Option.some.injEq] at hv
    subst hv
    rw [updateSummary_otherUser, updateSummary_animal]
    cases hg : mapGet m x.conversationId with
    | none =>
      simp only [Option.getD_none]
      exact ⟨x, by simp, hk, rfl, rfl⟩
    | some cur =>
      simp only [Option.getD_some]
      obtain ⟨y, hy, e1, e2, e3⟩ := h _ _ hg
      exact ⟨y, List.mem_append_left _ hy, e1.trans hk, e2, e3⟩
  · rw [if_neg hk] at hv
    obtain ⟨y, hy, e1, e2, e3⟩ := h _ _ hv
    exact ⟨y, List.mem_append_left _ hy, e1, e2, e3⟩

theorem scanOrigin_foldl (user : JSString) :
    ∀ (rest p : List Message) (m : ConvMap), ScanOrigin user p m →
      ScanOrigin user (p ++ rest) (rest.foldl (forEachStep user) m)
  | [], p, m, h => by simpa using h
  | x :: rest, p, m, h => by
    have := scanOrigin_foldl user rest (p ++ [x]) _ (scanOrigin_step user p m x h)
    simpa using this

theorem getConversations_origin (store : List Message) (user : JSString) (s : Summary)
    (hs : s ∈ getConversations store user) :
    ∃ x ∈ store, (x.sender = user ∨ x.receiver = user) ∧
      x.conversationId = s.conversationId ∧
      s.otherUser = (if x.sender = user then x.receiver else x.sender) ∧
      s.animal = x.animal := by
  have horigin : ScanOrigin user (findByParticipant store user)
      ((findByParticipant store user).foldl (forEachStep user) []) := by
    have := scanOrigin_foldl user (findByParticipant store user) [] []
      (fun k v hv => by simp [mapGet] at hv)
    simpa using this
  obtain ⟨x, hx, e1, e2, e3⟩ := horigin _ _ ((mem_groupScan user _ s).1 hs)
  obtain ⟨m1, m2⟩ := (mem_findByParticipant store user x).1 hx
  exact ⟨x, m1, m2, e1, e2, e3⟩

theorem resolve_ne_nil (a b r : JSString) : resolve a b r ≠ [] := by
  rw [resolve_eq]
  split_ifs <;> simp

theorem getConversations_nodup (store : List Message) (user : JSString) :
    ((getConversations store user).map Summary.conversationId).Nodup := by
  unfold getConversations
  rw [groupScan_ids]
  exact (scanInv_scan user _).1

theorem find_by_id (l : List Summary) (h : (l.map Summary.conversationId).Nodup)
    (s : Summary) (hs : s ∈ l) :
    l.find? (fun c => decide (some c.conversationId = some s.conversationId)) = some s := by
  induction l with
  | nil => simp at hs
  | cons x rest ih =>
    simp only [List.map_cons, List.nodup_cons] at h
    rcases List.mem_cons.1 hs with hs | hs
    · subst hs
      simp [List.find?]
    · have hne : x.conversationId ≠ s.conversationId := by
        intro e
        exact h.1 (e ▸ List.mem_map_of_mem Summary.conversationId hs)
      have hp : ¬ ((fun c : Summary =>
          decide (some c.conversationId = some s.conversationId)) x = true) := by
        simp [hne]
      rw [List.find?_cons_of_neg rest hp]
      exact ih h.2 hs

theorem handleSendMessage_some (conversations : List Summary) (sel : Option JSString)
    (text : JSString) (body : SendBody)
    (h : handleSendMessage conversations sel text = some body) :
    ∃ s ∈ conversations, some s.conversationId = sel ∧
      body = { receiverId := s.otherUser, animalId := s.animal, message := text,
               conversationId := sel } := by
  unfold handleSendMessage at h
  split_ifs at h
  split at h
  · cases h
  · rename_i conversation hfind
    simp only [Option.some.injEq] at h
    exact ⟨conversation, List.mem_of_find?_eq_some hfind,
      by simpa using List.find?_some hfind, h.symm⟩

theorem postMessage_reply_resolved (env : Collaborators) (later : List Message)
    (user : JSString) (s : Summary) (text : JSString) (now : Nat)
    (hid : resolve user s.otherUser s.animal = s.conversationId)
    (hlater : ∀ m ∈ later, m.conversationId = resolve m.sender m.receiver m.animal) :
    (∀ m, (postMessage env later user
        { receiverId := s.otherUser, animalId := s.animal, message := text,
          conversationId := some s.conversationId } now).1 = SendReply.created m →
      m.conversationId = s.conversationId ∧ m.sender = user ∧ m.receiver = s.otherUser ∧
      m.animal = s.animal ∧ m.message = text ∧
      m.conversationId = resolve m.sender m.receiver m.animal ∧
      (postMessage env later user
        { receiverId := s.otherUser, animalId := s.animal, message := text,
          conversationId := some s.conversationId } now).2 = later ++ [m]) ∧
    ∀ m ∈ (postMessage env later user
        { receiverId := s.otherUser, animalId := s.animal, message := text,
          conversationId := some s.conversationId } now).2,
      m.conversationId = resolve m.sender m.receiver m.animal := by
  have hor : orElse (some s.conversationId) (resolve user s.otherUser s.animal) =
      s.conversationId := by
    rw [hid]
    cases s.conversationId <;> rfl
  have hcreated : ∀ m, (postMessage env later user
        { receiverId := s.otherUser, animalId := s.animal, message := text,
          conversationId := some s.conversationId } now).1 = SendReply.created m →
      m.conversationId = s.conversationId ∧ m.sender = user ∧ m.receiver = s.otherUser ∧
      m.animal = s.animal ∧ m.message = text ∧
      m.conversationId = resolve m.sender m.receiver m.animal ∧
      (postMessage env later user
        { receiverId := s.otherUser, animalId := s.animal, message := text,
          conversationId := some s.conversationId } now).2 = later ++ [m] := by
    intro m hm
    obtain ⟨e, hst⟩ := postMessage_created env later user _ now m hm
    simp only [hor] at e
    refine ⟨by rw [e], by rw [e], by rw [e], by rw [e], by rw [e], ?_, hst⟩
    rw [e]
    exact hid.symm
  refine ⟨hcreated, ?_⟩
  intro m hm
  rcases postMessage_store env later user
      { receiverId := s.otherUser, animalId := s.animal, message := text,
        conversationId := some s.conversationId } now with hst | ⟨m1, hm1, hst⟩
  · rw [hst] at hm
    exact hlater m hm
  · rw [hst] at hm
    rcases List.mem_append.1 hm with hm | hm
    · exact hlater m hm
    · have hmm : m = m1 := by simpa using hm
      rw [hmm]
      exact (hcreated m1 hm1).2.2.2.2.2.1

/-- C30: when every stored message is filed under the id computed from its own
sender, receiver and animal, every summary `s` in the list of `user` has
`resolve user s.otherUser s.animal` as its conversation id; with `s` selected
and a text that is not blank the Messages page posts the reply with receiver
`s.otherUser`, animal `s.animal` and conversation id `s.conversationId`; a
successful send of that reply appends one message of `user` to `s.otherUser`
filed under `s.conversationId`, which is the id computed from its sender,
receiver and animal, so the property still holds afterwards. -/
theorem replies_stay_resolved (store later : List Message) (user : JSString)
    (hres : ∀ m ∈ store, m.conversationId = resolve m.sender m.receiver m.animal)
    (hlater : ∀ m ∈ later, m.conversationId = resolve m.sender m.receiver m.animal) :
    (∀ s ∈ getConversations store user,
      resolve user s.otherUser s.animal = s.conversationId ∧
      (∀ text, text.all jsWhitespace = false →
        handleSendMessage (getConversations store user) (some s.conversationId) text =
          some { receiverId := s.otherUser, animalId := s.animal, message := text,
                 conversationId := some s.conversationId }) ∧
      (∀ text env now m,
        (postMessage env later user
          { receiverId := s.otherUser, animalId := s.animal, message := text,
            conversationId := some s.conversationId } now).1 = SendReply.created m →
        m.conversationId = s.conversationId ∧ m.sender = user ∧
        m.receiver = s.otherUser ∧ m.animal = s.animal ∧ m.message = text ∧
        m.conversationId = resolve m.sender m.receiver m.animal ∧
        (postMessage env later user
          { receiverId := s.otherUser, animalId := s.animal, message := text,
            conversationId := some s.conversationId } now).2 = later ++ [m])) ∧
    (∀ sel text body, handleSendMessage (getConversations store user) sel text = some body →
      ∀ env now, ∀ m ∈ (postMessage env later user body now).2,
        m.conversationId = resolve m.sender m.receiver m.animal) := by
  have h1 : ∀ s ∈ getConversations store user,
      resolve user s.otherUser s.animal = s.conversationId := by
    intro s hs
    obtain ⟨x, hx, hu, e1, e2, e3⟩ := getConversations_origin store user s hs
    rw [← e1, hres x hx, e2, e3]
    by_cases hsend : x.sender = user
    · rw [if_pos hsend, hsend]
    · have hrecv : x.receiver = user := by
        rcases hu with hu | hu
        · exact absurd hu hsend
        · exact hu
      rw [if_neg hsend, hrecv]
      exact resolve_swap x.sender user x.animal
  constructor
  · intro s hs
    refine ⟨h1 s hs, ?_, ?_⟩
    · intro text htext
      have hne : s.conversationId ≠ [] := by
        rw [← h1 s hs]
        exact resolve_ne_nil _ _ _
      have htruthy : truthy (some s.conversationId) = true := by
        cases hc : s.conversationId with
        | nil => exact absurd hc hne
        | cons x xs => rfl
      unfold handleSendMessage
      rw [htext, htruthy, find_by_id _ (getConversations_nodup store user) s hs]
      rfl
    · intro text env now m hm
      exact (postMessage_reply_resolved env later user s text now (h1 s hs) hlater).1 m hm
  · intro sel text body hbody env now m hm
    obtain ⟨s, hs, hsel, hb⟩ := handleSendMessage_some _ sel text body hbody
    rw [hb, ← hsel] at hm
    exact (postMessage_reply_resolved env later user s text now (h1 s hs) hlater).2 m hm

theorem replies_stay_resolved_witness :
    resolve (str "U2") demoSummary.otherUser demoSummary.animal = demoSummary.conversationId ∧
      handleSendMessage (getConversations demoStore (str "U2"))
          (some demoSummary.conversationId) (str "ok") =
        some { receiverId := str "U1", animalId := str "R7", message := str "ok",
               conversationId := some (str "U1_U2_R7") } ∧
      (postMessage envAll demoStore (str "U2")
          { receiverId := str "U1", animalId := str "R7", message := str "ok",
            conversationId := some (str "U1_U2_R7") } 4).2 =
        demoStore ++
          [{ conversationId := str "U1_U2_R7", sender := str "U2", receiver := str "U1",
             animal := str "R7", message := str "ok", isRead := false, createdAt := 4 }] :=
  ⟨((replies_stay_resolved demoStore demoStore (str "U2") (by decide) (by decide)).1
      demoSummary (by decide)).1,
    ((replies_stay_resolved demoStore demoStore (str "U2") (by decide) (by decide)).1
      demoSummary (by decide)).2.1 (str "ok") (by decide),
    (((replies_stay_resolved demoStore demoStore (str "U2") (by decide) (by decide)).1
      demoSummary (by decide)).2.2 (str "ok") envAll 4
      { conversationId := str "U1_U2_R7", sender := str "U2", receiver := str "U1",
        animal := str "R7", message := str "ok", isRead := false, createdAt := 4 }
      (by decide)).2.2.2.2.2.2⟩

/-- C23: in a store where every message has a sender different from its
receiver and every conversation id has exactly two participants, each summary
in the list of `user` names another user as `otherUser`, and every message of
its conversation goes between `user` and `otherUser`; when `user` is never the
receiver in the conversation, the unread count is 0 and `otherUser` is the
receiver of every message. -/
theorem other_party (store : List Message) (user : JSString)
    (hne : ∀ m ∈ store, m.sender ≠ m.receiver)
    (hcard : ∀ m ∈ store, (groupParticipants store m.conversationId).card = 2) :
    ∀ s ∈ getConversations store user,
      s.otherUser ≠ user ∧
      (∀ y ∈ store, y.conversationId = s.conversationId →
        (y.sender = user ∧ y.receiver = s.otherUser) ∨
        (y.sender = s.otherUser ∧ y.receiver = user)) ∧
      ((∀ y ∈ store, y.conversationId = s.conversationId → y.receiver ≠ user) →
        s.unreadCount = 0 ∧
        ∀ y ∈ store, y.conversationId = s.conversationId → y.receiver = s.otherUser) := by
  intro s hs
  obtain ⟨x, hx, hu, e1, e2, _⟩ := getConversations_origin store user s hs
  have hxne := hne x hx
  have hpair : s.otherUser ≠ user ∧
      ((x.sender = user ∧ x.receiver = s.otherUser) ∨
        (x.sender = s.otherUser ∧ x.receiver = user)) := by
    by_cases hsend : x.sender = user
    · rw [if_pos hsend] at e2
      exact ⟨by rw [e2, ← hsend]; exact fun e => hxne e.symm, Or.inl ⟨hsend, e2.symm⟩⟩
    · rw [if_neg hsend] at e2
      have hrecv : x.receiver = user := by
        rcases hu with hu | hu
        · exact absurd hu hsend
        · exact hu
      exact ⟨by rw [e2]; exact hsend, Or.inr ⟨e2.symm, hrecv⟩⟩
  obtain ⟨hother, hx2⟩ := hpair
  have huser_mem : user ∈ groupParticipants store s.conversationId := by
    rw [mem_groupParticipants]
    refine ⟨x, hx, e1, ?_⟩
    rcases hx2 with ⟨a, _⟩ | ⟨_, b⟩
    · exact Or.inl a.symm
    · exact Or.inr b.symm
  have hother_mem : s.otherUser ∈ groupParticipants store s.conversationId := by
    rw [mem_groupParticipants]
    refine ⟨x, hx, e1, ?_⟩
    rcases hx2 with ⟨_, b⟩ | ⟨a, _⟩
    · exact Or.inr b.symm
    · exact Or.inl a.symm
  have hc : (groupParticipants store s.conversationId).card = 2 := by
    rw [← e1]; exact hcard x hx
  have hset : ({user, s.otherUser} : Finset JSString) =
      groupParticipants store s.conversationId := by
    apply Finset.eq_of_subset_of_card_le
    · intro z hz
      simp only [Finset.mem_insert, Finset.mem_singleton] at hz
      rcases hz with hz | hz
      · rw [hz]; exact huser_mem
      · rw [hz]; exact hother_mem
    · rw [hc, Finset.card_pair (fun e => hother e.symm)]
  have hall : ∀ y ∈ store, y.conversationId = s.conversationId →
      (y.sender = user ∧ y.receiver = s.otherUser) ∨
      (y.sender = s.otherUser ∧ y.receiver = user) := by
    intro y hy hyc
    have hs1 : y.sender ∈ groupParticipants store s.conversationId :=
      (mem_groupParticipants _ _ _).2 ⟨y, hy, hyc, Or.inl rfl⟩
    have hr1 : y.receiver ∈ groupParticipants store s.conversationId :=
      (mem_groupParticipants _ _ _).2 ⟨y, hy, hyc, Or.inr rfl⟩
    rw [← hset] at hs1 hr1
    simp only [Finset.mem_insert, Finset.mem_singleton] at hs1 hr1
    have hyne := hne y hy
    rcases hs1 with a | a <;> rcases hr1 with b | b
    · exact absurd (a.trans b.symm) hyne
    · exact Or.inl ⟨a, b⟩
    · exact Or.inr ⟨a, b⟩
    · exact absurd (a.trans b.symm) hyne
  refine ⟨hother, hall, ?_⟩
  intro hnever
  constructor
  · rw [getConversations_unread store user s hs]
    unfold unreadFor
    rw [List.length_eq_zero, List.filter_eq_nil_iff]
    intro y hy
    by_cases hyc : y.conversationId = s.conversationId
    · simp [unreadIn, hnever y hy hyc]
    · simp [unreadIn, hyc]
  · intro y hy hyc
    rcases hall y hy hyc with ⟨_, b⟩ | ⟨_, b⟩
    · exact b
    · exact absurd b (hnever y hy hyc)

theorem other_party_witness :
    demoSummary.otherUser ≠ str "U2" ∧
      (∀ y ∈ demoStore, y.conversationId = demoSummary.conversationId →
        (y.sender = str "U2" ∧ y.receiver = demoSummary.otherUser) ∨
        (y.sender = demoSummary.otherUser ∧ y.receiver = str "U2")) ∧
      ((∀ y ∈ demoStore, y.conversationId = demoSummary.conversationId →
          y.receiver ≠ str "U2") →
        demoSummary.unreadCount = 0 ∧
        ∀ y ∈ demoStore, y.conversationId = demoSummary.conversationId →
          y.receiver = demoSummary.otherUser) :=
  other_party demoStore (str "U2") (by decide) (by decide) demoSummary (by decide)

/-! ## The polling effect -/

theorem runCleanup_clears (p : Page) (h : p.intervals = p.cleanup.toList) :
    (runCleanup p).intervals = [] ∧ (runCleanup p).cleanup = none ∧
      (runCleanup p).mounted = p.mounted ∧
      (runCleanup p).selectedConversation = p.selectedConversation ∧
      (runCleanup p).nextInterval = p.nextInterval := by
  unfold runCleanup
  cases hc : p.cleanup with
  | none =>
    rw [hc] at h
    exact ⟨h, hc, rfl, rfl, rfl⟩
  | some interval =>
    rw [hc] at h
    refine ⟨?_, rfl, rfl, rfl, rfl⟩
    show p.intervals.filter (fun i => decide (i ≠ interval)) = []
    rw [h]
    simp [Option.toList]

theorem pageInv_runEffect (p : Page) (h1 : p.intervals = []) (h2 : p.mounted = true) :
    PageInv (runEffect p) := by
  unfold runEffect
  by_cases ht : truthy p.selectedConversation = true
  · rw [if_pos ht]
    refine ⟨by simp [h1, Option.toList], fun _ => ⟨ht, h2⟩, ?_⟩
    intro i hi
    simp only [h1, List.mem_singleton] at hi
    simp only
    omega
  · rw [if_neg ht]
    refine ⟨by simp [h1, Option.toList], fun hs => by simp at hs, ?_⟩
    intro i hi
    simp only [h1] at hi
    simp at hi

theorem pageInv_mount : PageInv mountPage :=
  pageInv_runEffect _ rfl rfl

theorem pageInv_step (p : Page) (e : PageEvent) (h : PageInv p) : PageInv (pageStep p e) := by
  cases e with
  | select c =>
    show PageInv (setSelectedConversation p c)
    unfold setSelectedConversation
    split_ifs with hcond
    · have hm : p.mounted = true := by
        simp only [Bool.and_eq_true] at hcond
        exact hcond.1
      obtain ⟨c1, _, c3, _, _⟩ :=
        runCleanup_clears { p with selectedConversation := some c } h.1
      exact pageInv_runEffect _ c1 (c3.trans hm)
    · exact h
  | leave =>
    show PageInv (unmountPage p)
    unfold unmountPage
    split_ifs with hm
    · obtain ⟨c1, c2, _, _, _⟩ := runCleanup_clears p h.1
      refine ⟨?_, ?_, ?_⟩
      · show (runCleanup p).intervals = (runCleanup p).cleanup.toList
        rw [c1, c2]
        rfl
      · intro hs
        have : (runCleanup p).cleanup.isSome = true := hs
        rw [c2] at this
        simp at this
      · intro i hi
        have : i ∈ (runCleanup p).intervals := hi
        rw [c1] at this
        simp at this
    · exact h

theorem pageInv_foldl :
    ∀ (events : List PageEvent) (p : Page), PageInv p → PageInv (events.foldl pageStep p)
  | [], _, h => h
  | e :: rest, p, h => pageInv_foldl rest (pageStep p e) (pageInv_step p e h)

theorem pageInv_run (events : List PageEvent) : PageInv (pageRun events) :=
  pageInv_foldl events mountPage pageInv_mount

theorem pageInv_facts (p : Page) (h : PageInv p) :
    p.intervals.length ≤ 1 ∧
      (truthy p.selectedConversation = false → p.intervals = []) ∧
      (p.mounted = false → p.intervals = []) := by
  obtain ⟨h1, h2, _⟩ := h
  cases hc : p.cleanup with
  | none =>
    rw [hc] at h1
    have : p.intervals = [] := h1
    simp [this]
  | some i =>
    rw [hc] at h1 h2
    have hi : p.intervals = [i] := h1
    obtain ⟨t, m⟩ := h2 rfl
    refine ⟨by simp [hi], fun hf => ?_, fun hf => ?_⟩
    · rw [t] at hf; simp at hf
    · rw [m] at hf; simp at hf

theorem step_clears_previous (p : Page) (e : PageEvent) (h : PageInv p)
    (hchange : pageStep p e ≠ p) : ∀ i ∈ p.intervals, i ∉ (pageStep p e).intervals := by
  intro i hi
  have hlt := h.2.2 i hi
  cases e with
  | select c =>
    have hstep : pageStep p (PageEvent.select c) = setSelectedConversation p c := rfl
    rw [hstep] at hchange ⊢
    unfold setSelectedConversation at hchange ⊢
    split_ifs with hcond
    · obtain ⟨c1, _, _, _, c5⟩ :=
        runCleanup_clears { p with selectedConversation := some c } h.1
      unfold runEffect
      split_ifs
      · simp only [c1, c5, List.mem_singleton]
        show ¬ i = p.nextInterval
        omega
      · simp only [c1]
        simp
    · rw [if_neg hcond] at hchange
      exact absurd rfl hchange
  | leave =>
    have hstep : pageStep p PageEvent.leave = unmountPage p := rfl
    rw [hstep] at hchange ⊢
    unfold unmountPage at hchange ⊢
    split_ifs with hm
    · obtain ⟨c1, _, _, _, _⟩ := runCleanup_clears p h.1
      show i ∉ (runCleanup p).intervals
      rw [c1]
      simp
    · rw [if_neg hm] at hchange
      exact absurd rfl hchange

/-- C25: in every state the Messages page reaches from its first render by
selecting conversations and leaving the view, at most one polling interval is
active, none while no conversation is selected and none after the view is
left; and a step that changes the selection or leaves the view clears the
interval that was active before it, so the one active afterwards, if any, is a
new one. -/
theorem one_polling_interval (events : List PageEvent) :
    (pageRun events).intervals.length ≤ 1 ∧
    (truthy (pageRun events).selectedConversation = false →
      (pageRun events).intervals = []) ∧
    ((pageRun events).mounted = false → (pageRun events).intervals = []) ∧
    (∀ e, pageStep (pageRun events) e ≠ pageRun events →
      ∀ i ∈ (pageRun events).intervals, i ∉ (pageStep (pageRun events) e).intervals) := by
  have h := pageInv_run events
  obtain ⟨f1, f2, f3⟩ := pageInv_facts _ h
  exact ⟨f1, f2, f3, fun e he => step_clears_previous _ e h he⟩

theorem one_polling_interval_witness :
    (pageRun [PageEvent.select (str "U1_U2_R7"), PageEvent.select (str "U2_U3_R8")]).intervals
        = [1] ∧
      (pageRun [PageEvent.select (str "U1_U2_R7"), PageEvent.select (str "U2_U3_R8"),
        PageEvent.leave]).intervals = [] :=
  ⟨by decide,
    (one_polling_interval [PageEvent.select (str "U1_U2_R7"),
      PageEvent.select (str "U2_U3_R8"), PageEvent.leave]).2.2.1 (by decide)⟩

/-! ## The role label -/

theorem lookup_filter_none (doc : JSObject) (keep : String × JSValue → Bool) (name : String)
    (h : ∀ v, keep (name, v) = false) : (doc.filter keep).lookup name = none := by
  induction doc with
  | nil => rfl
  | cons e rest ih =>
    obtain ⟨k, v⟩ := e
    by_cases hk : keep (k, v) = true
    · rw [List.filter_cons_of_pos hk]
      have hne : ¬ name = k := by
        intro e1
        subst e1
        rw [h v] at hk
        exact absurd hk (by simp)
      have hbeq : (name == k) = false := by simpa using hne
      rw [List.lookup_cons, hbeq]
      exact ih
    · rw [List.filter_cons_of_neg hk]
      exact ih

theorem getUserRole_populated (doc : JSObject) (userId : JSString) :
    getUserRole (populatedAnimal doc) userId = str "Buyer" := by
  unfold getUserRole getProp populatedAnimal populateSelect
  have hdrop : ∀ v : JSValue,
      (fun e : String × JSValue => e.1 == "_id" || ["title", "images"].contains e.1)
        ("sellerId", v) = false := by
    intro v
    show ("sellerId" == "_id" || ["title", "images"].contains "sellerId") = false
    decide
  rw [lookup_filter_none doc _ "sellerId" hdrop]
  simp

/-- C27 (the code at the failing input): for the animal whose seller is `U1`,
the summary's populated `animal` has no property `sellerId`, and `getUserRole`
gives the logged-in seller `U1` the label `Buyer`. -/
theorem role_of_owner_is_buyer :
    getProp demoAnimal "seller" = some (JSValue.str (str "U1")) ∧
      getProp (populatedAnimal demoAnimal) "sellerId" = none ∧
      getUserRole (populatedAnimal demoAnimal) (str "U1") = str "Buyer" ∧
      str "Buyer" ≠ str "Seller" :=
  ⟨by decide, by decide, getUserRole_populated demoAnimal (str "U1"), by decide⟩

end Messages
